import Mathlib

/-!
Verification of the LUMOS VSCode extension core (`src/extension.ts`):
the line-oriented formatter (`formatDocument`, `alignStructFields`),
the validation-error message extractor (`parseValidationErrors` and its
two regular expressions), the heuristic error locator
(`findErrorLocation`) and the missing-colon quick fix
(`createAddColonFix`).

The embedding works over `List Char` (one list per line; ASCII inputs).
JavaScript operations are modelled faithfully:
`String.prototype.trim` / `\s` use the ASCII whitespace set,
`' '.repeat(n)` throws a `RangeError` for `n < 0` (modelled as `Option`
failure), `split('\n')` / `join('\n')` are `splitLines` / `joinLines`,
`Array.prototype.sort()` on strings is lexicographic by code unit
(`sortL`), `String.prototype.indexOf` is `idxOf?` (`none` for the
JavaScript `-1`).
-/

/-- Characters of a string literal, as the working representation. -/
def sLit (s : String) : List Char := s.data

/-- ASCII JavaScript whitespace (`\s` and the characters removed by `trim`). -/
def isWs (c : Char) : Bool :=
  c = ' ' || c = '\t' || c = '\n' || c = '\r' || c = '\x0b' || c = '\x0c'

/-- Remove leading whitespace. -/
def trimLeft (l : List Char) : List Char := l.dropWhile isWs

/-- Remove trailing whitespace. -/
def trimRight (l : List Char) : List Char := (l.reverse.dropWhile isWs).reverse

/-- JavaScript `String.prototype.trim`. -/
def jsTrim (l : List Char) : List Char := trimRight (trimLeft l)

/-- JavaScript `String.prototype.startsWith`. -/
def startsWithL (pre l : List Char) : Bool := pre.isPrefixOf l

/-- JavaScript `String.prototype.endsWith`. -/
def endsWithL (suf l : List Char) : Bool := suf.isSuffixOf l

/-- JavaScript `String.prototype.includes`. -/
def containsL (sub : List Char) : List Char → Bool
  | [] => sub.isEmpty
  | c :: t => sub.isPrefixOf (c :: t) || containsL sub t

/-- First index of `sub` in `l` (JavaScript `indexOf`; `none` for `-1`). -/
def idxOf? (sub : List Char) : List Char → Option Nat
  | [] => if sub.isEmpty then some 0 else none
  | c :: t =>
    if sub.isPrefixOf (c :: t) then some 0
    else (idxOf? sub t).map (· + 1)

/-- `n` space characters. -/
def spaces (n : Nat) : List Char := List.replicate n ' '

/-- JavaScript `' '.repeat(count)`: throws (`none`) for a negative count. -/
def jsSpaceRepeat (count : Int) : Option (List Char) :=
  if count < 0 then none else some (spaces count.toNat)

/-- JavaScript string comparison `a < b` (by code unit, ASCII here). -/
def lexLt : List Char → List Char → Bool
  | [], [] => false
  | [], _ :: _ => true
  | _ :: _, [] => false
  | a :: as, b :: bs => if a = b then lexLt as bs else decide (a.toNat < b.toNat)

/-- Insert into a `lexLt`-sorted list. -/
def insertLex (x : List Char) : List (List Char) → List (List Char)
  | [] => [x]
  | y :: ys => if lexLt y x then y :: insertLex x ys else x :: y :: ys

/-- JavaScript `Array.prototype.sort()` on an array of strings. -/
def sortL : List (List Char) → List (List Char)
  | [] => []
  | x :: xs => insertLex x (sortL xs)

/-- Split on `'\n'` (JavaScript `text.split('\n')`; never empty). -/
def splitLines : List Char → List (List Char)
  | [] => [[]]
  | c :: cs =>
    if c = '\n' then [] :: splitLines cs
    else
      match splitLines cs with
      | l :: ls => (c :: l) :: ls
      | [] => [[c]]

/-- Join with `'\n'` (JavaScript `lines.join('\n')`). -/
def joinLines : List (List Char) → List Char
  | [] => []
  | [l] => l
  | l :: ls => l ++ '\n' :: joinLines ls

/-! ## The formatter (`LumosFormattingProvider.formatDocument`) -/

/-- The formatter's mutable locals, threaded line by line:
`indentLevel`, `inStruct`, `structFields`, `attrs` (the `attributes`
array) and the `formatted` output accumulator. -/
structure FmtState where
  indentLevel : Int
  inStruct : Bool
  structFields : List (List Char)
  attrs : List (List Char)
  formatted : List (List Char)
  deriving Repr, DecidableEq

/-- Initial formatter state. -/
def initFmt : FmtState := ⟨0, false, [], [], []⟩

/-- `' '.repeat(indentLevel * indentSize)`. -/
def indentStr (lvl : Int) (size : Nat) : Option (List Char) :=
  jsSpaceRepeat (lvl * (size : Int))

/-- One entry of `alignStructFields`' `parsedFields`: split at the first
`':'` when its index is positive, into trimmed `fieldName` and trimmed
`rest` (which keeps its leading `':'`); otherwise the whole line with an
empty `rest`. -/
def parseField (f : List Char) : List Char × List Char :=
  match idxOf? [':'] f with
  | some ci => if 0 < ci then (jsTrim (f.take ci), jsTrim (f.drop ci)) else (f, [])
  | none => (f, [])

/-- `maxFieldLength`: maximum `fieldName` length over entries with a
non-empty `rest`. -/
def maxFieldLen (ps : List (List Char × List Char)) : Nat :=
  ps.foldl (fun m p => if p.2.isEmpty then m else max m p.1.length) 0

/-- Effectful map over `Option` (the `Array.prototype.map` of the source,
which throws as soon as one element throws). -/
def optMapM {α β : Type} (f : α → Option β) : List α → Option (List β)
  | [] => some []
  | a :: as => do
    let b ← f a
    let bs ← optMapM f as
    pure (b :: bs)

/-- `LumosFormattingProvider.alignStructFields`. -/
def alignStructFields (fields : List (List Char)) (lvl : Int) (size : Nat) :
    Option (List (List Char)) :=
  let ps := fields.map parseField
  let mx := maxFieldLen ps
  optMapM (fun p => do
    let ind ← indentStr lvl size
    if p.2.isEmpty then
      pure (ind ++ p.1)
    else
      pure (ind ++ p.1 ++ spaces (mx - p.1.length) ++ ':' :: ' ' :: jsTrim (p.2.drop 1))) ps

/-- The flush of buffered attribute lines that `formatDocument` performs
before a line starting with `struct`, `enum` or `pub`. -/
def flushAttrsStep (size : Nat) (sortAttrs : Bool) (st : FmtState) (line : List Char) :
    Option FmtState :=
  if !st.attrs.isEmpty &&
      (startsWithL (sLit "struct") line || startsWithL (sLit "enum") line ||
        startsWithL (sLit "pub") line) then do
    let ind ← indentStr st.indentLevel size
    let as := if sortAttrs then sortL st.attrs else st.attrs
    pure { st with formatted := st.formatted ++ as.map (fun a => ind ++ a), attrs := [] }
  else
    pure st

/-- The branch dispatch of the `formatDocument` loop body after the
blank-line, attribute-collection and attribute-flush steps. -/
def dispatchLine (size : Nat) (alignFields : Bool) (st1 : FmtState)
    (line : List Char) : Option FmtState :=
  if line = sLit "\x7d" || startsWithL (sLit "\x7d") line then do
      let st2 ←
        if st1.inStruct && !st1.structFields.isEmpty && alignFields then do
          let al ← alignStructFields st1.structFields (st1.indentLevel + 1) size
          pure { st1 with formatted := st1.formatted ++ al, structFields := [] }
        else
          pure st1
      let nI := st2.indentLevel - 1
      let ind ← indentStr nI size
      pure { st2 with indentLevel := nI, inStruct := false,
                      formatted := st2.formatted ++ [ind ++ line] }
    else if startsWithL (sLit "struct") line || startsWithL (sLit "enum") line ||
        startsWithL (sLit "pub struct") line || startsWithL (sLit "pub enum") line then do
      let ind ← indentStr st1.indentLevel size
      let stO := { st1 with formatted := st1.formatted ++ [ind ++ line] }
      if endsWithL (sLit "\x7b") line then
        pure { stO with indentLevel := stO.indentLevel + 1,
                        inStruct := if containsL (sLit "struct") line then true else stO.inStruct }
      else
        pure stO
    else if line = sLit "\x7b" then do
      let nI := st1.indentLevel + 1
      let ind ← indentStr (nI - 1) size
      let inS :=
        match st1.formatted.getLast? with
        | some prev => if !prev.isEmpty && containsL (sLit "struct") prev then true else st1.inStruct
        | none => st1.inStruct
      pure { st1 with indentLevel := nI, inStruct := inS,
                      formatted := st1.formatted ++ [ind ++ line] }
    else if st1.inStruct && containsL (sLit ":") line then
      pure { st1 with structFields := st1.structFields ++ [line] }
    else do
      let ind ← indentStr st1.indentLevel size
      pure { st1 with formatted := st1.formatted ++ [ind ++ line] }

/-- One iteration of the `formatDocument` loop body on raw line `raw`. -/
def processLine (size : Nat) (sortAttrs alignFields : Bool) (st : FmtState)
    (raw : List Char) : Option FmtState :=
  let line := jsTrim raw
  if line.isEmpty then
    some { st with formatted := st.formatted ++ [[]] }
  else if startsWithL (sLit "#[") line then
    some { st with attrs := st.attrs ++ [line] }
  else do
    let st1 ← flushAttrsStep size sortAttrs st line
    dispatchLine size alignFields st1 line

/-- The loop of `formatDocument` over all lines. -/
def runLines (size : Nat) (sortAttrs alignFields : Bool) :
    FmtState → List (List Char) → Option FmtState
  | st, [] => some st
  | st, raw :: ls => do
    let st1 ← processLine size sortAttrs alignFields st raw
    runLines size sortAttrs alignFields st1 ls

/-- The two end-of-document flushes of `formatDocument`. -/
def finishFmt (size : Nat) (sortAttrs alignFields : Bool) (st : FmtState) :
    Option (List (List Char)) := do
  let st1 ←
    if !st.structFields.isEmpty && alignFields then do
      let al ← alignStructFields st.structFields st.indentLevel size
      pure { st with formatted := st.formatted ++ al, structFields := [] }
    else
      pure st
  let st2 ←
    if !st1.attrs.isEmpty then do
      let ind ← indentStr st1.indentLevel size
      let as := if sortAttrs then sortL st1.attrs else st1.attrs
      pure { st1 with formatted := st1.formatted ++ as.map (fun a => ind ++ a) }
    else
      pure st1
  pure st2.formatted

/-- `formatDocument` on a list of lines. -/
def formatLines (ls : List (List Char)) (size : Nat) (sortAttrs alignFields : Bool) :
    Option (List (List Char)) := do
  let st ← runLines size sortAttrs alignFields initFmt ls
  finishFmt size sortAttrs alignFields st

/-- `LumosFormattingProvider.formatDocument text indentSize sortAttributes
alignFields`, with a thrown exception modelled as `none`. -/
def formatDocument (text : String) (size : Nat) (sortAttrs alignFields : Bool) :
    Option String :=
  (formatLines (splitLines text.data) size sortAttrs alignFields).map
    (fun outs => ⟨joinLines outs⟩)

/-! ## Diagnostics: positions, ranges, `parseValidationErrors`,
`findErrorLocation`, `createAddColonFix`.

A document is its ordered list of lines (`split('\n')` of the text, as
the editor exposes it). -/

/-- An editor position `(line, column)`. -/
structure Pos where
  line : Nat
  col : Nat
  deriving Repr, DecidableEq

/-- An editor range. -/
structure Range where
  start : Pos
  stop : Pos
  deriving Repr, DecidableEq

/-- A produced diagnostic (severity is always `Error` and omitted). -/
structure Diagnostic where
  range : Range
  message : String
  source : String
  deriving Repr, DecidableEq

/-- JavaScript `\w` (ASCII word character). -/
def isWordChar (c : Char) : Bool := c.isAlpha || c.isDigit || c = '_'

/-- `/^\s+\w+\s+\w+\s*$/.test(line)`: the character classes are disjoint,
so the greedy match is deterministic. -/
def testFieldNoColon (l : List Char) : Bool :=
  let r1 := l.dropWhile isWs
  decide (r1.length < l.length) &&
  (let w1 := r1.takeWhile isWordChar
   let r2 := r1.dropWhile isWordChar
   !w1.isEmpty &&
   (let r3 := r2.dropWhile isWs
    decide (r3.length < r2.length) &&
    (let w2 := r3.takeWhile isWordChar
     let r4 := r3.dropWhile isWordChar
     !w2.isEmpty && (r4.dropWhile isWs).isEmpty)))

/-- `/struct\s+\w+/` matching at the head of the list. -/
def structDeclAt (l : List Char) : Bool :=
  startsWithL (sLit "struct") l &&
  (let r := l.drop 6
   decide ((r.dropWhile isWs).length < r.length) &&
   (match r.dropWhile isWs with
    | c :: _ => isWordChar c
    | [] => false))

/-- `/struct\s+\w+/.test(line)` (unanchored search). -/
def testStructDecl : List Char → Bool
  | [] => false
  | c :: t => structDeclAt (c :: t) || testStructDecl t

/-- First line satisfying `p`, with its index. -/
def scanFind (p : List Char → Bool) : List (List Char) → Option (Nat × List Char)
  | [] => none
  | l :: ls => if p l then some (0, l) else (scanFind p ls).map (fun r => (r.1 + 1, r.2))

/-- Candidate test of the missing-colon bucket. -/
def bucketColon (l : List Char) : Bool := testFieldNoColon l && !containsL (sLit ":") l

/-- Candidate test of the missing-semicolon bucket. -/
def bucketSemi (l : List Char) : Bool :=
  containsL (sLit ":") l && !endsWithL (sLit ";") (jsTrim l) &&
    !endsWithL (sLit "\x7b") (jsTrim l)

/-- Candidate test of the missing-brace bucket. -/
def bucketBrace (l : List Char) : Bool := testStructDecl l && !containsL (sLit "\x7b") l

/-- The `(line, column)` pair computed by `findErrorLocation`'s loop,
starting from the default `(0, 0)`. -/
def locateLineCol (msg : List Char) (doc : List (List Char)) : Nat × Nat :=
  if containsL (sLit "expected `:`") msg then
    match scanFind bucketColon doc with
    | some r => (r.1, (idxOf? (jsTrim r.2) r.2).getD 0)
    | none => (0, 0)
  else if containsL (sLit "expected `;`") msg || containsL (sLit "semicolon") msg then
    match scanFind bucketSemi doc with
    | some r => (r.1, r.2.length - 1)
    | none => (0, 0)
  else if containsL (sLit "expected `\x7b`") msg then
    match scanFind bucketBrace doc with
    | some r => (r.1, r.2.length)
    | none => (0, 0)
  else (0, 0)

/-- `findErrorLocation(errorMessage, document)`. -/
def findErrorLocation (msg : String) (doc : List String) : Range :=
  let lc := locateLineCol msg.data (doc.map sLit)
  ⟨⟨lc.1, lc.2⟩, ⟨lc.1, lc.2 + 1⟩⟩

/-- Case-insensitive prefix test (the `/i` flag on a literal). -/
def ciStartsWith : List Char → List Char → Bool
  | [], _ => true
  | _ :: _, [] => false
  | p :: ps, c :: cs => (p.toLower = c.toLower) && ciStartsWith ps cs

/-- `(.+?)(?:\n|$)` at a fixed start: the lazy capture expands to the end
of the current line; it fails when no non-newline character is available. -/
def lazyCap (r : List Char) : Option (List Char) :=
  let t := r.takeWhile (fun c => !(c = '\n'))
  if t.isEmpty then none else some t

/-- Backtracking helper for a greedy `\s*` before `(.+?)(?:\n|$)`:
try consuming `j` whitespace characters, longest first. -/
def wsCapAux : Nat → List Char → Option (List Char)
  | 0, r => lazyCap r
  | j + 1, r => (lazyCap (r.drop (j + 1))).orElse (fun _ => wsCapAux j r)

/-- `\s*(.+?)(?:\n|$)` with the JavaScript backtracking order. -/
def wsThenCap (r : List Char) : Option (List Char) :=
  wsCapAux (r.takeWhile isWs).length r

/-- The optional sub-marker of the caused-by pattern. -/
def schemaMarker : List Char := sLit "schema parsing error:"

/-- `(?:Schema parsing error:\s*)?(.+?)(?:\n|$)`: the optional group is
tried first (greedy), falling back to the bare capture. -/
def causedTail (r : List Char) : Option (List Char) :=
  (if ciStartsWith schemaMarker r then wsThenCap (r.drop schemaMarker.length)
   else none).orElse (fun _ => lazyCap r)

/-- Backtracking helper for the outer greedy `\s*` of the caused-by
pattern. -/
def causedAux : Nat → List Char → Option (List Char)
  | 0, r => causedTail r
  | j + 1, r => (causedTail (r.drop (j + 1))).orElse (fun _ => causedAux j r)

/-- What follows the `Caused by:` literal:
`\s*(?:Schema parsing error:\s*)?(.+?)(?:\n|$)`. -/
def causedAfter (r : List Char) : Option (List Char) :=
  causedAux (r.takeWhile isWs).length r

/-- `RegExp.prototype.exec`: leftmost position where the case-insensitive
literal `pat` matches and the continuation succeeds; returns the capture. -/
def execScan (pat : List Char) (tail : List Char → Option (List Char)) :
    List Char → Option (List Char)
  | [] => none
  | c :: t =>
    match (if ciStartsWith pat (c :: t) then tail ((c :: t).drop pat.length) else none) with
    | some cap => some cap
    | none => execScan pat tail t

/-- Capture of `/Caused by:\s*(?:Schema parsing error:\s*)?(.+?)(?:\n|$)/i`. -/
def causedByExtract (s : String) : Option String :=
  (execScan (sLit "caused by:") causedAfter s.data).map (fun l => ⟨l⟩)

/-- Capture of the fallback `/(?:Error|error):\s*(.+?)(?:\n|$)/i`. -/
def errorExtract (s : String) : Option String :=
  (execScan (sLit "error:") wsThenCap s.data).map (fun l => ⟨l⟩)

/-- The `errorMessage` computed by `parseValidationErrors`: the trimmed
caused-by capture, else (when that is missing or trims to empty) the
trimmed fallback capture; `none` when the result is empty. -/
def extractMessage (errorOutput : String) : Option String :=
  let m1 := match causedByExtract errorOutput with
            | some c => jsTrim c.data
            | none => []
  let m2 := if m1.isEmpty then
              match errorExtract errorOutput with
              | some c => jsTrim c.data
              | none => []
            else m1
  if m2.isEmpty then none else some ⟨m2⟩

/-- `parseValidationErrors(errorOutput, document)`. -/
def parseValidationErrors (errorOutput : String) (doc : List String) : List Diagnostic :=
  match extractMessage errorOutput with
  | some m => [⟨findErrorLocation m doc, "LUMOS: " ++ m, "LUMOS"⟩]
  | none => []

/-- `/(\w+)\s+(\w+)/` matching at the head: first capture on success. -/
def twoWordsAt (l : List Char) : Option (List Char) :=
  let w1 := l.takeWhile isWordChar
  if w1.isEmpty then none
  else
    let r := l.dropWhile isWordChar
    let r2 := r.dropWhile isWs
    if decide (r2.length < r.length) then
      match r2 with
      | c :: _ => if isWordChar c then some w1 else none
      | [] => none
    else none

/-- `/(\w+)\s+(\w+)/.exec(line)`: first capture of the leftmost match. -/
def findTwoWords : List Char → Option (List Char)
  | [] => none
  | c :: t =>
    match twoWordsAt (c :: t) with
    | some w => some w
    | none => findTwoWords t

/-- `LumosCodeActionProvider.createAddColonFix`: the insert position and
inserted text, `none` when no fix is constructed (an out-of-range anchor
line, which throws in the editor API, is also `none`). -/
def createAddColonFix (doc : List String) (diag : Diagnostic) : Option (Pos × String) :=
  match doc.get? diag.range.start.line with
  | none => none
  | some lineText =>
    match findTwoWords lineText.data with
    | none => none
    | some fieldName =>
      some (⟨diag.range.start.line, (idxOf? fieldName lineText.data).getD 0 + fieldName.length⟩,
        ":")

/-- Apply a single-insert workspace edit to a document. -/
def applyInsert (doc : List String) (p : Pos) (txt : String) : List String :=
  doc.mapIdx (fun i l =>
    if i = p.line then ⟨l.data.take p.col ++ txt.data ++ l.data.drop p.col⟩ else l)

/-- Full text of a document given as lines. -/
def docText (doc : List String) : String := ⟨joinLines (doc.map sLit)⟩

/-! ## Predicates used by the theorems -/

/-- `p` is a valid in-bounds position of the document: its line exists and
its column is at most that line's length (the position after the last
character is the largest valid one). -/
def posInDoc (doc : List String) (p : Pos) : Bool :=
  decide (p.line < doc.length) && decide (p.col ≤ ((doc.map sLit).getD p.line []).length)

/-- The message matches none of the three location-heuristic buckets. -/
def noBucket (msg : String) : Bool :=
  !containsL (sLit "expected `:`") msg.data &&
  !(containsL (sLit "expected `;`") msg.data || containsL (sLit "semicolon") msg.data) &&
  !containsL (sLit "expected `\x7b`") msg.data

/-- The bucket selected for the message (if any) scans the whole document
without finding a candidate line. -/
def noCandidate (msg : String) (doc : List String) : Bool :=
  let m := msg.data
  let d := doc.map sLit
  if containsL (sLit "expected `:`") m then (scanFind bucketColon d).isNone
  else if containsL (sLit "expected `;`") m || containsL (sLit "semicolon") m then
    (scanFind bucketSemi d).isNone
  else if containsL (sLit "expected `\x7b`") m then (scanFind bucketBrace d).isNone
  else true

/-- A `BlockClose` line as the formatter classifies it (trimmed text is
or begins with a closing brace). -/
def isCloseLine (l : List Char) : Bool :=
  decide (l = sLit "\x7d") || startsWithL (sLit "\x7d") l

/-- The `indentLevel` after the formatter processes one trimmed line `l`
from level `k`, following `processLine`'s classification order. -/
def nextLevel (k : Int) (l : List Char) : Int :=
  if l.isEmpty then k
  else if startsWithL (sLit "#[") l then k
  else if isCloseLine l then k - 1
  else if startsWithL (sLit "struct") l || startsWithL (sLit "enum") l ||
      startsWithL (sLit "pub struct") l || startsWithL (sLit "pub enum") l then
    (if endsWithL (sLit "\x7b") l then k + 1 else k)
  else if l = sLit "\x7b" then k + 1
  else k

/-- Brace balance of the lines as the formatter's `indentLevel` sees it,
starting from level `k`: a closing-brace line must never be reached at
level `0` (there it would make the level negative and
`' '.repeat` throw). Lines are classified exactly as `processLine` does. -/
def balancedFrom : Int → List (List Char) → Bool
  | _, [] => true
  | k, raw :: ls =>
    let l := jsTrim raw
    (if isCloseLine l then decide (1 ≤ k) else true) && balancedFrom (nextLevel k l) ls

/-- No line of the document is an attribute line (trimmed text starting
with `#[`). -/
def noAttrDoc (ls : List (List Char)) : Bool :=
  ls.all (fun raw => !startsWithL (sLit "#[") (jsTrim raw))

/-- The pure per-entry emission of `alignStructFields` once the indent
string is known to be `ind` and the batch maximum is `mx`. -/
def emitField (ind : List Char) (mx : Nat) (p : List Char × List Char) : List Char :=
  if p.2.isEmpty then ind ++ p.1
  else ind ++ p.1 ++ spaces (mx - p.1.length) ++ ':' :: ' ' :: jsTrim (p.2.drop 1)

/-- What holds of every line the formatter buffers in `structFields`:
it is trimmed, newline-free, contains the separator, and fails all the
branch tests that precede the field branch. -/
def goodField (l : List Char) : Prop :=
  jsTrim l = l ∧ containsL (sLit ":") l = true ∧
  startsWithL (sLit "#[") l = false ∧ isCloseLine l = false ∧
  (startsWithL (sLit "struct") l || startsWithL (sLit "enum") l ||
    startsWithL (sLit "pub struct") l || startsWithL (sLit "pub enum") l) = false ∧
  '
' ∉ l

/-- The state invariant of a formatter pass over an attribute-free
document: the attribute buffer stays empty, buffered fields are
well-formed, a non-empty field buffer (when alignment is on) implies the
struct flag, and all emitted lines are newline-free. -/
def fmtInv (aF : Bool) (st : FmtState) : Prop :=
  st.attrs = [] ∧ (∀ f ∈ st.structFields, goodField f) ∧
  (aF = true → st.structFields ≠ [] → st.inStruct = true) ∧
  (∀ l ∈ st.formatted, '
' ∉ l)

/-- The state a second formatter pass is in when it has replayed the
first pass's emissions: same indent, struct flag and output, but empty
buffers. -/
def eraseBuffers (st : FmtState) : FmtState :=
  ⟨st.indentLevel, st.inStruct, [], [], st.formatted⟩
/-- C10: confirmed. Every range returned by `findErrorLocation` spans exactly one character: the end position is on the same line as the start and its column is the start column plus one. -/
theorem c10_locator_single_char (msg : String) (doc : List String) :
    (findErrorLocation msg doc).stop.line = (findErrorLocation msg doc).start.line ∧
    (findErrorLocation msg doc).stop.col = (findErrorLocation msg doc).start.col + 1 :=
  ⟨rfl, rfl⟩

/-- C1: counterexample. The formatter is not total: on the single-line document consisting of one closing brace, the indent level drops to -1 and `' '.repeat(-4)` throws, so `formatDocument` returns `none`. -/
theorem c1_counterexample : formatDocument "\x7d" 4 true true = none := by decide

/-- C2: the buffered field of `struct S` is silently deleted when `alignFields` is false: the output is `struct S {\n}` and the field name `a` does not occur in it, because buffering is unconditional but both flushes are gated on `alignFields`. -/
theorem c2_field_dropped :
    formatDocument "struct S \x7b\na: b\n\x7d" 4 true false = some "struct S \x7b\n\x7d" ∧
    containsL (sLit "a") (sLit "struct S \x7b\n\x7d") = false := by
  exact ⟨by decide, by decide⟩

/-- C3: counterexample. A buffered attribute above a plain line `x` is not flushed before it: the attribute is held to end of document and emitted after `x`, so the output is `x\n#[a]`, not the input order. -/
theorem c3_counterexample :
    formatDocument "#[a]\nx" 4 true true = some "x\n#[a]" ∧
    formatDocument "#[a]\nx" 4 true true ≠ some "#[a]\nx" :=
  ⟨by decide, by decide⟩

/-- C4: counterexample. Formatting is not idempotent: when a struct field is buffered, the attribute block attached to the line after it is displaced, and a second format run moves it again, giving a different document. -/
theorem c4_counterexample :
    formatDocument "struct U \x7b\n#[a]\npub a: b\nx" 4 true true =
      some "struct U \x7b\n    #[a]\n    x\n    pub a: b" ∧
    formatDocument "struct U \x7b\n    #[a]\n    x\n    pub a: b" 4 true true =
      some "struct U \x7b\n    x\n    #[a]\n    pub a: b" ∧
    ("struct U \x7b\n    #[a]\n    x\n    pub a: b" : String) ≠
      "struct U \x7b\n    x\n    #[a]\n    pub a: b" :=
  ⟨by decide, by decide, by decide⟩

/-- C5: counterexample. A field line whose separator is at index 0 (`: x`) is passed through the aligner unpadded, so its colon column (4) differs from the aligned column of `ab: c` (6) = indent + maxFieldLength. -/
theorem c5_counterexample :
    alignStructFields [sLit ": x", sLit "ab: c"] 1 4 = some [sLit "    : x", sLit "    ab: c"] ∧
    idxOf? [':'] (sLit "    : x") = some 4 ∧
    idxOf? [':'] (sLit "    ab: c") = some 6 ∧
    maxFieldLen ([sLit ": x", sLit "ab: c"].map parseField) + 1 * 4 = 6 :=
  ⟨by decide, by decide, by decide, by decide⟩

/-- C7: counterexample. For the message `expected \x60\x7b\x60` on the one-line document `struct S`, the brace bucket returns the range (0,8)-(0,9), whose end column 9 is out of bounds for the 8-character line. -/
theorem c7_counterexample :
    findErrorLocation "expected `\x7b`" ["struct S"] = ⟨⟨0, 8⟩, ⟨0, 9⟩⟩ ∧
    posInDoc ["struct S"] ⟨0, 9⟩ = false :=
  ⟨by decide, by decide⟩

/-- C8: counterexample. The diagnostic message is not the extracted text verbatim: extraction yields `boom` but the diagnostic carries `LUMOS: boom`. -/
theorem c8_counterexample :
    extractMessage "Error: boom" = some "boom" ∧
    parseValidationErrors "Error: boom" ["x"] =
      [⟨⟨⟨0, 0⟩, ⟨0, 1⟩⟩, "LUMOS: boom", "LUMOS"⟩] ∧
    ("LUMOS: boom" : String) ≠ "boom" :=
  ⟨by decide, by decide, by decide⟩

/-- C9: confirmed. For any error message containing `expected \x60:\x60` and the document `wallet PublicKey`, the locator returns (0,0)-(0,1), the quick fix inserts a colon at line 0 column 6 (right after the first token `wallet`), and applying the edit yields `wallet: PublicKey`. -/
theorem c9_scenario_a (msg : String)
    (h : containsL (sLit "expected `:`") msg.data = true) :
    findErrorLocation msg ["wallet PublicKey", ""] = ⟨⟨0, 0⟩, ⟨0, 1⟩⟩ ∧
    createAddColonFix ["wallet PublicKey", ""]
      ⟨findErrorLocation msg ["wallet PublicKey", ""], "LUMOS: " ++ msg, "LUMOS"⟩ =
      some (⟨0, 6⟩, ":") ∧
    docText (applyInsert ["wallet PublicKey", ""] ⟨0, 6⟩ ":") = "wallet: PublicKey\n" := by
  have hloc : findErrorLocation msg ["wallet PublicKey", ""] = ⟨⟨0, 0⟩, ⟨0, 1⟩⟩ := by
    unfold findErrorLocation locateLineCol
    rw [h]
    rfl
  refine ⟨hloc, ?_, by decide⟩
  rw [hloc]
  rfl

/-- Witness for C9 at the concrete message `expected \x60:\x60`. -/
theorem c9_witness :
    findErrorLocation "expected `:`" ["wallet PublicKey", ""] = ⟨⟨0, 0⟩, ⟨0, 1⟩⟩ ∧
    createAddColonFix ["wallet PublicKey", ""]
      ⟨findErrorLocation "expected `:`" ["wallet PublicKey", ""],
        "LUMOS: " ++ "expected `:`", "LUMOS"⟩ =
      some (⟨0, 6⟩, ":") ∧
    docText (applyInsert ["wallet PublicKey", ""] ⟨0, 6⟩ ":") = "wallet: PublicKey\n" :=
  c9_scenario_a "expected `:`" (by decide)

/-- C6: confirmed. `parseValidationErrors` first tries the case-insensitive `Caused by:` pattern; only when that fails does it try the `Error:`/`error:` fallback; when both fail (or the trimmed capture is empty) no diagnostic is produced. -/
theorem c6_extraction_priority (errorOutput : String) (doc : List String) :
    (∀ c : String, causedByExtract errorOutput = some c → (jsTrim c.data).isEmpty = false →
      parseValidationErrors errorOutput doc =
        [⟨findErrorLocation ⟨jsTrim c.data⟩ doc, "LUMOS: " ++ String.mk (jsTrim c.data),
          "LUMOS"⟩]) ∧
    (causedByExtract errorOutput = none → ∀ c : String, errorExtract errorOutput = some c →
      (jsTrim c.data).isEmpty = false →
      parseValidationErrors errorOutput doc =
        [⟨findErrorLocation ⟨jsTrim c.data⟩ doc, "LUMOS: " ++ String.mk (jsTrim c.data),
          "LUMOS"⟩]) ∧
    (causedByExtract errorOutput = none → errorExtract errorOutput = none →
      parseValidationErrors errorOutput doc = []) := by
  refine ⟨?_, ?_, ?_⟩
  · intro c hc hne
    unfold parseValidationErrors extractMessage
    rw [hc]
    simp [hne]
  · intro h1 c hc hne
    unfold parseValidationErrors extractMessage
    rw [h1, hc]
    simp [hne]
  · intro h1 h2
    unfold parseValidationErrors extractMessage
    rw [h1, h2]
    rfl

/-- Witness for C6 on a concrete `Caused by:` error output. -/
theorem c6_witness :
    parseValidationErrors "Caused by: boom" ["x"] =
      [⟨⟨⟨0, 0⟩, ⟨0, 1⟩⟩, "LUMOS: boom", "LUMOS"⟩] := by
  have h := (c6_extraction_priority "Caused by: boom" ["x"]).1 "boom" (by decide) (by decide)
  exact h.trans (by decide)

theorem locate_default_of_noCandidate (msg : String) (doc : List String)
    (h : noCandidate msg doc = true) :
    findErrorLocation msg doc = ⟨⟨0, 0⟩, ⟨0, 1⟩⟩ := by
  unfold noCandidate at h
  unfold findErrorLocation locateLineCol
  simp only at h
  by_cases h1 : containsL (sLit "expected `:`") msg.data = true
  · simp only [h1, if_true, eq_self_iff_true] at h ⊢
    rw [Option.isNone_iff_eq_none] at h
    rw [h]
  · rw [if_neg h1] at h ⊢
    by_cases h2 : (containsL (sLit "expected `;`") msg.data ||
        containsL (sLit "semicolon") msg.data) = true
    · simp only [h2, if_true, eq_self_iff_true] at h ⊢
      rw [Option.isNone_iff_eq_none] at h
      rw [h]
    · rw [if_neg h2] at h ⊢
      by_cases h3 : containsL (sLit "expected `\x7b`") msg.data = true
      · simp only [h3, if_true, eq_self_iff_true] at h ⊢
        rw [Option.isNone_iff_eq_none] at h
        rw [h]
      · rw [if_neg h3]

/-- C8: corrected. When the heuristic scan finds no candidate line, a diagnostic is still produced and anchored at the document's first character (range (0,0)-(0,1)), but its message is `LUMOS: ` prepended to the extracted text, not the extracted text verbatim. -/
theorem c8_amended (errorOutput : String) (doc : List String) (m : String)
    (hm : extractMessage errorOutput = some m)
    (hc : noCandidate m doc = true) :
    parseValidationErrors errorOutput doc =
      [⟨⟨⟨0, 0⟩, ⟨0, 1⟩⟩, "LUMOS: " ++ m, "LUMOS"⟩] := by
  unfold parseValidationErrors
  rw [hm]
  change [(⟨findErrorLocation m doc, "LUMOS: " ++ m, "LUMOS"⟩ : Diagnostic)] = _
  rw [locate_default_of_noCandidate m doc hc]

/-- Witness for C8 on a concrete fallback-extracted message with no matching line. -/
theorem c8_witness :
    parseValidationErrors "Error: zzz" ["x"] =
      [⟨⟨⟨0, 0⟩, ⟨0, 1⟩⟩, "LUMOS: " ++ "zzz", "LUMOS"⟩] :=
  c8_amended "Error: zzz" ["x"] "zzz" (by decide) (by decide)

theorem scanFind_some_spec (p : List Char → Bool) (ls : List (List Char)) (r : Nat × List Char)
    (h : scanFind p ls = some r) : r.1 < ls.length ∧ ls.getD r.1 [] = r.2 := by
  induction ls generalizing r with
  | nil => simp [scanFind] at h
  | cons a as ih =>
    unfold scanFind at h
    by_cases hp : p a = true
    · rw [if_pos hp] at h
      cases h
      exact ⟨Nat.succ_pos _, rfl⟩
    · rw [if_neg hp] at h
      cases hs : scanFind p as with
      | none => rw [hs] at h; simp at h
      | some rp =>
        rw [hs] at h
        simp only [Option.map_some'] at h
        obtain ⟨h1, h2⟩ := ih rp hs
        cases h
        exact ⟨Nat.succ_lt_succ h1, h2⟩

theorem idxOf?_le_length (sub l : List Char) (j : Nat) (h : idxOf? sub l = some j) :
    j ≤ l.length := by
  induction l generalizing j with
  | nil =>
    unfold idxOf? at h
    split at h
    · cases h; exact Nat.le_refl 0
    · cases h
  | cons c t ih =>
    unfold idxOf? at h
    split at h
    · cases h; exact Nat.zero_le _
    · cases hs : idxOf? sub t with
      | none => rw [hs] at h; cases h
      | some jp =>
        rw [hs] at h
        simp only [Option.map_some'] at h
        cases h
        exact Nat.succ_le_succ (ih jp hs)

theorem locate_lc_bounds (m : List Char) (d : List (List Char)) (hd : d ≠ []) :
    (locateLineCol m d).1 < d.length ∧
    (locateLineCol m d).2 ≤ (d.getD (locateLineCol m d).1 []).length := by
  have hdpos : 0 < d.length := List.length_pos.mpr hd
  unfold locateLineCol
  by_cases h1 : containsL (sLit "expected `:`") m = true
  · rw [if_pos h1]
    cases hs : scanFind bucketColon d with
    | none => exact ⟨hdpos, Nat.zero_le _⟩
    | some r =>
      obtain ⟨hlt, hget⟩ := scanFind_some_spec _ _ _ hs
      dsimp only
      refine ⟨hlt, ?_⟩
      rw [hget]
      cases hix : idxOf? (jsTrim r.2) r.2 with
      | none => simp [hix]
      | some j => simpa [hix, Option.getD] using idxOf?_le_length _ _ _ hix
  · rw [if_neg h1]
    by_cases h2 : (containsL (sLit "expected `;`") m || containsL (sLit "semicolon") m) = true
    · rw [if_pos h2]
      cases hs : scanFind bucketSemi d with
      | none => exact ⟨hdpos, Nat.zero_le _⟩
      | some r =>
        obtain ⟨hlt, hget⟩ := scanFind_some_spec _ _ _ hs
        dsimp only
        refine ⟨hlt, ?_⟩
        rw [hget]
        exact Nat.sub_le _ _
    · rw [if_neg h2]
      by_cases h3 : containsL (sLit "expected `\x7b`") m = true
      · rw [if_pos h3]
        cases hs : scanFind bucketBrace d with
        | none => exact ⟨hdpos, Nat.zero_le _⟩
        | some r =>
          obtain ⟨hlt, hget⟩ := scanFind_some_spec _ _ _ hs
          dsimp only
          refine ⟨hlt, ?_⟩
          rw [hget]
      · rw [if_neg h3]
        exact ⟨hdpos, Nat.zero_le _⟩

/-- C7: corrected. The locator never fails and its start position is always in bounds (line < doc length, column <= line length); the range always spans exactly one column, but the end column may exceed the line length (see the counterexample); when no bucket matches the message the default range is (0,0)-(0,1). -/
theorem c7_amended (msg : String) (doc : List String) (h : doc ≠ []) :
    (findErrorLocation msg doc).start.line < doc.length ∧
    (findErrorLocation msg doc).start.col ≤
      ((doc.map sLit).getD (findErrorLocation msg doc).start.line []).length ∧
    (findErrorLocation msg doc).stop.line = (findErrorLocation msg doc).start.line ∧
    (findErrorLocation msg doc).stop.col = (findErrorLocation msg doc).start.col + 1 ∧
    (noBucket msg = true → findErrorLocation msg doc = ⟨⟨0, 0⟩, ⟨0, 1⟩⟩) := by
  have hd : (doc.map sLit) ≠ [] := by
    intro hc
    exact h (List.map_eq_nil_iff.mp hc)
  obtain ⟨b1, b2⟩ := locate_lc_bounds msg.data (doc.map sLit) hd
  refine ⟨?_, ?_, rfl, rfl, ?_⟩
  · simpa [findErrorLocation, List.length_map] using b1
  · simpa [findErrorLocation] using b2
  · intro hb
    unfold noBucket at hb
    simp only [Bool.and_eq_true, Bool.not_eq_true', Bool.or_eq_false_iff] at hb
    obtain ⟨⟨hb1, hb2, hb3⟩, hb4⟩ := hb
    unfold findErrorLocation locateLineCol
    rw [hb1, hb2, hb3, hb4]
    rfl

/-- Witness for C7 on a message matching no bucket and a one-line document. -/
theorem c7_witness :
    (findErrorLocation "zzz" ["ab"]).start.line < (["ab"] : List String).length ∧
    (findErrorLocation "zzz" ["ab"]).start.col ≤
      (((["ab"] : List String).map sLit).getD (findErrorLocation "zzz" ["ab"]).start.line
        []).length ∧
    (findErrorLocation "zzz" ["ab"]).stop.line = (findErrorLocation "zzz" ["ab"]).start.line ∧
    (findErrorLocation "zzz" ["ab"]).stop.col = (findErrorLocation "zzz" ["ab"]).start.col + 1 ∧
    (noBucket "zzz" = true → findErrorLocation "zzz" ["ab"] = ⟨⟨0, 0⟩, ⟨0, 1⟩⟩) :=
  c7_amended "zzz" ["ab"] (by decide)

theorem indentStr_nonneg (lvl : Int) (size : Nat) (h : 0 ≤ lvl) :
    indentStr lvl size = some (spaces (lvl * size).toNat) := by
  unfold indentStr jsSpaceRepeat
  rw [if_neg]
  exact not_lt.mpr (mul_nonneg h (Int.natCast_nonneg _))

theorem startsWithL_cons (x : Char) (xs l : List Char) (h : startsWithL (x :: xs) l = true) :
    ∃ t, l = x :: t := by
  cases l with
  | nil => simp [startsWithL, List.isPrefixOf] at h
  | cons c t =>
    simp only [startsWithL, List.isPrefixOf, Bool.and_eq_true, beq_iff_eq] at h
    exact ⟨t, by rw [h.1]⟩

/-- C3: corrected. Buffered attributes are flushed -- sorted when `sortAttributes` is set, each prefixed with the current indent -- only before a line starting with `struct`, `enum` or `pub` (not before arbitrary lines), immediately followed by at most one line for the trigger line itself. -/
theorem c3_amended (size : Nat) (sortAttrs alignFields : Bool) (st : FmtState)
    (raw : List Char)
    (hA : st.attrs.isEmpty = false)
    (hS : (startsWithL (sLit "struct") (jsTrim raw) || startsWithL (sLit "enum") (jsTrim raw) ||
      startsWithL (sLit "pub") (jsTrim raw)) = true)
    (hInd : 0 ≤ st.indentLevel) :
    ∃ st' tail, processLine size sortAttrs alignFields st raw = some st' ∧
      st'.attrs = [] ∧ tail.length ≤ 1 ∧
      st'.formatted = st.formatted ++
        (if sortAttrs then sortL st.attrs else st.attrs).map
          (fun a => spaces (st.indentLevel * size).toNat ++ a) ++ tail := by
  have hhead : ∃ c t, jsTrim raw = c :: t ∧ (c = 's' ∨ c = 'e' ∨ c = 'p') := by
    rcases Bool.or_eq_true_iff.mp hS with h | hp
    · rcases Bool.or_eq_true_iff.mp h with hs | he
      · obtain ⟨t, ht⟩ := startsWithL_cons _ _ _ hs
        exact ⟨'s', t, ht, Or.inl rfl⟩
      · obtain ⟨t, ht⟩ := startsWithL_cons _ _ _ he
        exact ⟨'e', t, ht, Or.inr (Or.inl rfl)⟩
    · obtain ⟨t, ht⟩ := startsWithL_cons _ _ _ hp
      exact ⟨'p', t, ht, Or.inr (Or.inr rfl)⟩
  obtain ⟨c, t, hline, hc⟩ := hhead
  have h0 : (jsTrim raw).isEmpty = false := by rw [hline]; rfl
  have h1 : startsWithL (sLit "#[") (jsTrim raw) = false := by
    rw [hline]
    rcases hc with rfl | rfl | rfl <;> rfl
  have h2 : (decide (jsTrim raw = sLit "\x7d") || startsWithL (sLit "\x7d") (jsTrim raw)) =
      false := by
    rw [hline]
    rcases hc with rfl | rfl | rfl <;>
      simp [startsWithL, List.isPrefixOf, sLit]
  have h3 : jsTrim raw ≠ sLit "\x7b" := by
    rw [hline]
    rcases hc with rfl | rfl | rfl <;> simp [sLit]
  have hflush : (!st.attrs.isEmpty &&
      (startsWithL (sLit "struct") (jsTrim raw) || startsWithL (sLit "enum") (jsTrim raw) ||
        startsWithL (sLit "pub") (jsTrim raw))) = true := by
    rw [hA, hS]
    rfl
  unfold processLine flushAttrsStep dispatchLine
  simp only [h0, Bool.false_eq_true, if_false, h1, hflush, eq_self_iff_true, if_true,
    indentStr_nonneg _ _ hInd, Option.pure_def, Option.bind_eq_bind, Option.some_bind, h2]
  by_cases hb1 : (startsWithL (sLit "struct") (jsTrim raw) ||
      startsWithL (sLit "enum") (jsTrim raw) || startsWithL (sLit "pub struct") (jsTrim raw) ||
      startsWithL (sLit "pub enum") (jsTrim raw)) = true
  · simp only [hb1, eq_self_iff_true, if_true, indentStr_nonneg _ _ hInd, Option.pure_def,
      Option.bind_eq_bind, Option.some_bind]
    by_cases hb2 : endsWithL (sLit "\x7b") (jsTrim raw) = true
    · simp only [hb2, eq_self_iff_true, if_true]
      refine ⟨_, [spaces (st.indentLevel * size).toNat ++ jsTrim raw], rfl, rfl, by simp, ?_⟩
      simp [List.append_assoc]
    · simp only [hb2, Bool.false_eq_true, if_false]
      refine ⟨_, [spaces (st.indentLevel * size).toNat ++ jsTrim raw], rfl, rfl, by simp, ?_⟩
      simp [List.append_assoc]
  · simp only [hb1, Bool.false_eq_true, if_false, if_neg h3]
    by_cases hb3 : (st.inStruct && containsL (sLit ":") (jsTrim raw)) = true
    · simp only [hb3, eq_self_iff_true, if_true]
      refine ⟨_, [], rfl, rfl, by simp, ?_⟩
      simp
    · simp only [hb3, Bool.false_eq_true, if_false, indentStr_nonneg _ _ hInd, Option.pure_def,
        Option.bind_eq_bind, Option.some_bind]
      refine ⟨_, [spaces (st.indentLevel * size).toNat ++ jsTrim raw], rfl, rfl, by simp, ?_⟩
      simp [List.append_assoc]

/-- Witness for C3: two attributes flushed sorted before `struct S \x7b`. -/
theorem c3_witness :
    ∃ st' tail,
      processLine 4 true true ⟨0, false, [], [sLit "#[b]", sLit "#[a]"], []⟩
          (sLit "struct S \x7b") =
        some st' ∧
      st'.attrs = [] ∧ tail.length ≤ 1 ∧
      st'.formatted = [] ++
        (if true then sortL [sLit "#[b]", sLit "#[a]"] else [sLit "#[b]", sLit "#[a]"]).map
          (fun a => spaces (((0 : Int) * (4 : Nat)).toNat) ++ a) ++ tail :=
  c3_amended 4 true true ⟨0, false, [], [sLit "#[b]", sLit "#[a]"], []⟩ (sLit "struct S \x7b")
    (by decide) (by decide) (by decide)
theorem indentStr_of_nonneg_mul (lvl : Int) (size : Nat) (h : 0 ≤ lvl * (size : Int)) :
    indentStr lvl size = some (spaces (lvl * (size : Int)).toNat) := by
  unfold indentStr jsSpaceRepeat
  rw [if_neg (not_lt.mpr h)]

theorem optMapM_eq_map_of_some {α β : Type} (f : α → Option β) (g : α → β)
    (hfg : ∀ a, f a = some (g a)) (ps : List α) : optMapM f ps = some (ps.map g) := by
  induction ps with
  | nil => rfl
  | cons p ps ih =>
    unfold optMapM
    rw [hfg p, ih]
    rfl

theorem alignStructFields_eq (fields : List (List Char)) (lvl : Int) (size : Nat)
    (h : 0 ≤ lvl * (size : Int)) :
    alignStructFields fields lvl size =
      some ((fields.map parseField).map
        (emitField (spaces (lvl * (size : Int)).toNat)
          (maxFieldLen (fields.map parseField)))) := by
  unfold alignStructFields
  refine optMapM_eq_map_of_some _ _ (fun p => ?_) _
  simp only [indentStr_of_nonneg_mul lvl size h, Option.pure_def, Option.bind_eq_bind,
    Option.some_bind, emitField]
  by_cases hp : p.2.isEmpty = true
  · rw [if_pos hp, if_pos hp]
  · rw [if_neg hp, if_neg hp]

theorem alignStructFields_nonneg (f : List Char) (fs : List (List Char)) (lvl : Int)
    (size : Nat) (outs : List (List Char))
    (h : alignStructFields (f :: fs) lvl size = some outs) : 0 ≤ lvl * (size : Int) := by
  by_contra hneg
  have hn : indentStr lvl size = none := by
    unfold indentStr jsSpaceRepeat
    rw [if_pos (lt_of_not_le hneg)]
  unfold alignStructFields optMapM at h
  simp only [List.map_cons, hn, Option.pure_def, Option.bind_eq_bind, Option.none_bind] at h
  cases h

theorem foldl_maxField_ge_acc (ps : List (List Char × List Char)) (acc : Nat) :
    acc ≤ ps.foldl (fun m p => if p.2.isEmpty then m else max m p.1.length) acc := by
  induction ps generalizing acc with
  | nil => exact Nat.le_refl _
  | cons p ps ih =>
    rw [List.foldl_cons]
    refine le_trans ?_ (ih _)
    by_cases hp : p.2.isEmpty = true
    · rw [if_pos hp]
    · rw [if_neg hp]
      exact le_max_left _ _

theorem le_foldl_maxField (ps : List (List Char × List Char))
    (p : List Char × List Char) (hp : p ∈ ps) (hpe : p.2.isEmpty = false) (acc : Nat) :
    p.1.length ≤ ps.foldl (fun m q => if q.2.isEmpty then m else max m q.1.length) acc := by
  induction ps generalizing acc with
  | nil => cases hp
  | cons q qs ih =>
    rw [List.foldl_cons]
    rcases List.mem_cons.mp hp with rfl | hmem
    · rw [hpe]
      simp only [Bool.false_eq_true, if_false]
      exact le_trans (le_max_right _ _) (foldl_maxField_ge_acc qs _)
    · exact ih hmem _

theorem le_maxFieldLen_of_mem (ps : List (List Char × List Char))
    (p : List Char × List Char) (hp : p ∈ ps) (hr : p.2 ≠ []) :
    p.1.length ≤ maxFieldLen ps := by
  have hpe : p.2.isEmpty = false := by
    cases h2 : p.2 with
    | nil => exact absurd h2 hr
    | cons a t => rfl
  exact le_foldl_maxField ps p hp hpe 0

theorem idxOf?_not_mem_take (c : Char) (l : List Char) (k : Nat)
    (h : idxOf? [c] l = some k) : c ∉ l.take k := by
  induction l generalizing k with
  | nil =>
    unfold idxOf? at h
    split at h
    · cases h; simp
    · cases h
  | cons a t ih =>
    unfold idxOf? at h
    split at h
    · cases h
      simp
    · rename_i hpre
      cases hs : idxOf? [c] t with
      | none => rw [hs] at h; cases h
      | some kp =>
        rw [hs] at h
        simp only [Option.map_some'] at h
        cases h
        have hca : ¬(c = a) := by
          intro hceq
          apply hpre
          subst hceq
          simp [List.isPrefixOf]
        rw [List.take_succ_cons]
        intro hmem
        rcases List.mem_cons.mp hmem with h1 | h2
        · exact hca h1
        · exact ih kp hs h2

theorem jsTrim_sublist (l : List Char) : List.Sublist (jsTrim l) l := by
  unfold jsTrim trimLeft trimRight
  have h1 : List.Sublist ((l.dropWhile isWs).reverse.dropWhile isWs)
      (l.dropWhile isWs).reverse := List.dropWhile_sublist _
  have h2 : List.Sublist ((l.dropWhile isWs).reverse.dropWhile isWs).reverse
      (l.dropWhile isWs) := by simpa using h1.reverse
  exact h2.trans (List.dropWhile_sublist isWs)

theorem idxOf?_spaced_colon (pre rest : List Char) (hpre : ':' ∉ pre) :
    idxOf? [':'] (pre ++ ':' :: rest) = some pre.length := by
  induction pre with
  | nil => simp [idxOf?, List.isPrefixOf]
  | cons a p ih =>
    have ha : ¬(a = ':') := fun hc => hpre (by rw [hc]; exact List.mem_cons_self _ _)
    simp only [List.cons_append]
    unfold idxOf?
    rw [if_neg, ih (fun hm => hpre (List.mem_cons_of_mem _ hm))]
    · rfl
    · intro hp
      simp only [List.isPrefixOf, Bool.and_eq_true, beq_iff_eq] at hp
      exact ha hp.1.symm

theorem idxOf?_isPrefixOf_drop (sub l : List Char) (k : Nat) (h : idxOf? sub l = some k) :
    sub.isPrefixOf (l.drop k) = true := by
  induction l generalizing k with
  | nil =>
    unfold idxOf? at h
    split at h
    · cases h
      rename_i hsub
      simp only [List.isEmpty_iff] at hsub
      rw [hsub]
      rfl
    · cases h
  | cons a t ih =>
    unfold idxOf? at h
    split at h
    · cases h
      rename_i hpre
      exact hpre
    · cases hs : idxOf? sub t with
      | none => rw [hs] at h; cases h
      | some kp =>
        rw [hs] at h
        simp only [Option.map_some'] at h
        cases h
        rw [List.drop_succ_cons]
        exact ih kp hs

theorem jsTrim_ne_nil_of_head (c : Char) (t : List Char) (hc : isWs c = false) :
    jsTrim (c :: t) ≠ [] := by
  unfold jsTrim trimLeft trimRight
  rw [List.dropWhile_cons_of_neg (by rw [hc]; exact Bool.false_ne_true)]
  intro hnil
  rw [List.reverse_eq_nil_iff, List.dropWhile_eq_nil_iff] at hnil
  have : isWs c = true := hnil c (by simp)
  rw [hc] at this
  cases this

theorem parseField_nil_snd (f n : List Char) (h : parseField f = (n, [])) : n = f := by
  unfold parseField at h
  cases hix : idxOf? [':'] f with
  | none =>
    rw [hix] at h
    cases h
    rfl
  | some ci =>
    rw [hix] at h
    dsimp only at h
    by_cases hci : 0 < ci
    · rw [if_pos hci, Prod.mk.injEq] at h
      have hdrop := idxOf?_isPrefixOf_drop _ _ _ hix
      obtain ⟨t, ht⟩ : ∃ t, f.drop ci = ':' :: t := by
        cases hd : f.drop ci with
        | nil => rw [hd] at hdrop; cases hdrop
        | cons a u =>
          rw [hd] at hdrop
          simp only [List.isPrefixOf, Bool.and_eq_true, beq_iff_eq] at hdrop
          exact ⟨u, by rw [hdrop.1]⟩
      have hne2 : jsTrim (f.drop ci) ≠ [] := by
        rw [ht]
        exact jsTrim_ne_nil_of_head ':' t rfl
      exact absurd h.2 hne2
    · rw [if_neg hci] at h
      cases h
      rfl

theorem parseField_pos (f n r : List Char) (h : parseField f = (n, r)) (hr : r ≠ []) :
    ∃ ci, idxOf? [':'] f = some ci ∧ 0 < ci ∧ n = jsTrim (f.take ci) ∧
      r = jsTrim (f.drop ci) := by
  unfold parseField at h
  cases hix : idxOf? [':'] f with
  | none =>
    rw [hix] at h
    cases h
    exact absurd rfl hr
  | some ci =>
    rw [hix] at h
    dsimp only at h
    by_cases hci : 0 < ci
    · rw [if_pos hci] at h
      cases h
      exact ⟨ci, rfl, hci, rfl, rfl⟩
    · rw [if_neg hci] at h
      cases h
      exact absurd rfl hr

theorem parseField_name_colon_free (f n r : List Char) (h : parseField f = (n, r))
    (hr : r ≠ []) : ':' ∉ n := by
  obtain ⟨ci, hix, hci, hn, hrr⟩ := parseField_pos f n r h hr
  intro hmem
  have hsub : ':' ∈ f.take ci := (jsTrim_sublist _).subset (by rw [← hn]; exact hmem)
  exact idxOf?_not_mem_take ':' f ci hix hsub

/-- C5: corrected. Each field line handed to the aligner whose first separator is at positive index is emitted as indent ++ name ++ padding ++ colon-space ++ trimmed rest, with the colon at column indent + maxFieldLength; a line with no separator, or with the separator at index 0, is emitted as indent ++ line unchanged (see the counterexample). -/
theorem c5_amended (fields : List (List Char)) (lvl : Int) (size : Nat)
    (outs : List (List Char)) (h : alignStructFields fields lvl size = some outs)
    (i : Nat) (hi : i < fields.length) :
    ∃ o, outs.get? i = some o ∧
      ((parseField (fields.get ⟨i, hi⟩)).2 ≠ [] →
        o = spaces (lvl * (size : Int)).toNat ++ (parseField (fields.get ⟨i, hi⟩)).1 ++
            spaces (maxFieldLen (fields.map parseField) -
              (parseField (fields.get ⟨i, hi⟩)).1.length) ++
            ':' :: ' ' :: jsTrim ((parseField (fields.get ⟨i, hi⟩)).2.drop 1) ∧
        idxOf? [':'] o =
          some ((lvl * (size : Int)).toNat + maxFieldLen (fields.map parseField))) ∧
      ((parseField (fields.get ⟨i, hi⟩)).2 = [] →
        o = spaces (lvl * (size : Int)).toNat ++ fields.get ⟨i, hi⟩) := by
  have hnn : 0 ≤ lvl * (size : Int) := by
    cases fields with
    | nil => exact absurd hi (by simp)
    | cons f0 fs => exact alignStructFields_nonneg f0 fs lvl size outs h
  rw [alignStructFields_eq _ _ _ hnn, Option.some.injEq] at h
  subst h
  refine ⟨emitField (spaces (lvl * (size : Int)).toNat)
      (maxFieldLen (fields.map parseField)) (parseField (fields.get ⟨i, hi⟩)), ?_, ?_, ?_⟩
  · rw [List.get?_eq_getElem?, List.getElem?_map, List.getElem?_map,
      List.getElem?_eq_getElem hi]
    rfl
  · intro hr
    have hpe : (parseField (fields.get ⟨i, hi⟩)).2.isEmpty = false := by
      cases hh : (parseField (fields.get ⟨i, hi⟩)).2 with
      | nil => exact absurd hh hr
      | cons a t => rfl
    have hemit : emitField (spaces (lvl * (size : Int)).toNat)
        (maxFieldLen (fields.map parseField)) (parseField (fields.get ⟨i, hi⟩)) =
        spaces (lvl * (size : Int)).toNat ++ (parseField (fields.get ⟨i, hi⟩)).1 ++
          spaces (maxFieldLen (fields.map parseField) -
            (parseField (fields.get ⟨i, hi⟩)).1.length) ++
          ':' :: ' ' :: jsTrim ((parseField (fields.get ⟨i, hi⟩)).2.drop 1) := by
      unfold emitField
      rw [hpe]
      simp only [Bool.false_eq_true, if_false]
    refine ⟨hemit, ?_⟩
    rw [hemit]
    have hparse : parseField (fields.get ⟨i, hi⟩) =
        ((parseField (fields.get ⟨i, hi⟩)).1, (parseField (fields.get ⟨i, hi⟩)).2) := rfl
    have hfree1 : ':' ∉ spaces (lvl * (size : Int)).toNat := fun hm =>
      absurd (List.eq_of_mem_replicate hm) (by decide)
    have hfree2 : ':' ∉ (parseField (fields.get ⟨i, hi⟩)).1 :=
      parseField_name_colon_free _ _ _ hparse hr
    have hfree3 : ':' ∉ spaces (maxFieldLen (fields.map parseField) -
        (parseField (fields.get ⟨i, hi⟩)).1.length) := fun hm =>
      absurd (List.eq_of_mem_replicate hm) (by decide)
    have hfree : ':' ∉ (spaces (lvl * (size : Int)).toNat ++
        (parseField (fields.get ⟨i, hi⟩)).1 ++
        spaces (maxFieldLen (fields.map parseField) -
          (parseField (fields.get ⟨i, hi⟩)).1.length)) := by
      intro hmem
      rcases List.mem_append.mp hmem with hm | hm
      · rcases List.mem_append.mp hm with h1 | h2
        · exact hfree1 h1
        · exact hfree2 h2
      · exact hfree3 hm
    have hle : (parseField (fields.get ⟨i, hi⟩)).1.length ≤
        maxFieldLen (fields.map parseField) := by
      refine le_maxFieldLen_of_mem _ _ ?_ hr
      exact List.mem_map_of_mem parseField (List.get_mem fields i hi)
    calc idxOf? [':'] (spaces (lvl * (size : Int)).toNat ++
            (parseField (fields.get ⟨i, hi⟩)).1 ++
            spaces (maxFieldLen (fields.map parseField) -
              (parseField (fields.get ⟨i, hi⟩)).1.length) ++
            ':' :: ' ' :: jsTrim ((parseField (fields.get ⟨i, hi⟩)).2.drop 1))
        = idxOf? [':'] ((spaces (lvl * (size : Int)).toNat ++
            (parseField (fields.get ⟨i, hi⟩)).1 ++
            spaces (maxFieldLen (fields.map parseField) -
              (parseField (fields.get ⟨i, hi⟩)).1.length)) ++
            ':' :: ' ' :: jsTrim ((parseField (fields.get ⟨i, hi⟩)).2.drop 1)) := by
          simp only [List.append_assoc]
      _ = some ((spaces (lvl * (size : Int)).toNat ++
            (parseField (fields.get ⟨i, hi⟩)).1 ++
            spaces (maxFieldLen (fields.map parseField) -
              (parseField (fields.get ⟨i, hi⟩)).1.length)).length) :=
          idxOf?_spaced_colon _ _ hfree
      _ = some ((lvl * (size : Int)).toNat + maxFieldLen (fields.map parseField)) := by
          simp only [List.length_append, spaces, List.length_replicate]
          rw [Nat.add_assoc, Nat.add_sub_cancel' hle]
  · intro hr
    have hname : (parseField (fields.get ⟨i, hi⟩)).1 = fields.get ⟨i, hi⟩ := by
      refine parseField_nil_snd _ _ ?_
      rw [← hr]
    unfold emitField
    rw [hr]
    simp only [List.isEmpty_nil, if_true]
    rw [hname]

/-- Witness for C5 on a concrete two-field batch. -/
theorem c5_witness :
    ∃ o, (match alignStructFields [sLit "name: String,", sLit "balance: u64,"] 1 4 with
        | some outs => outs
        | none => []).get? 0 = some o ∧
      ((parseField ([sLit "name: String,", sLit "balance: u64,"].get ⟨0, by decide⟩)).2 ≠ [] →
        o = spaces ((1 : Int) * (4 : Nat)).toNat ++
            (parseField ([sLit "name: String,", sLit "balance: u64,"].get ⟨0, by decide⟩)).1 ++
            spaces (maxFieldLen ([sLit "name: String,", sLit "balance: u64,"].map parseField) -
              (parseField ([sLit "name: String,",
                sLit "balance: u64,"].get ⟨0, by decide⟩)).1.length) ++
            ':' :: ' ' :: jsTrim ((parseField ([sLit "name: String,",
              sLit "balance: u64,"].get ⟨0, by decide⟩)).2.drop 1) ∧
        idxOf? [':'] o = some (((1 : Int) * (4 : Nat)).toNat +
          maxFieldLen ([sLit "name: String,", sLit "balance: u64,"].map parseField))) ∧
      ((parseField ([sLit "name: String,", sLit "balance: u64,"].get ⟨0, by decide⟩)).2 = [] →
        o = spaces ((1 : Int) * (4 : Nat)).toNat ++
          [sLit "name: String,", sLit "balance: u64,"].get ⟨0, by decide⟩) :=
  c5_amended [sLit "name: String,", sLit "balance: u64,"] 1 4
    (match alignStructFields [sLit "name: String,", sLit "balance: u64,"] 1 4 with
      | some outs => outs
      | none => [])
    (by decide) 0 (by decide)
theorem isCloseLine_shape (l : List Char) (h : isCloseLine l = true) : ∃ t, l = '}' :: t := by
  unfold isCloseLine at h
  rcases Bool.or_eq_true_iff.mp h with h1 | h2
  · exact ⟨[], by simpa [sLit] using of_decide_eq_true h1⟩
  · exact startsWithL_cons '}' [] l (by simpa [sLit] using h2)

theorem nextLevel_of_blank (k : Int) (l : List Char) (h : l.isEmpty = true) :
    nextLevel k l = k := by
  unfold nextLevel
  rw [if_pos h]

theorem nextLevel_of_attr (k : Int) (l : List Char) (h : startsWithL (sLit "#[") l = true) :
    nextLevel k l = k := by
  obtain ⟨t, rfl⟩ := startsWithL_cons '#' ['['] l h
  unfold nextLevel
  rw [if_neg (by simp), if_pos h]

theorem nextLevel_of_close (k : Int) (l : List Char) (h : isCloseLine l = true) :
    nextLevel k l = k - 1 := by
  obtain ⟨t, rfl⟩ := isCloseLine_shape l h
  unfold nextLevel
  rw [if_neg (by simp), if_neg (by intro hc; simp [startsWithL, List.isPrefixOf] at hc),
    if_pos h]

theorem nextLevel_nonneg (k : Int) (l : List Char) (h0 : 0 ≤ k)
    (hcl : isCloseLine l = true → 1 ≤ k) : 0 ≤ nextLevel k l := by
  unfold nextLevel
  split_ifs with h1 h2 h3 h4 h5 h6
  · exact h0
  · exact h0
  · have := hcl h3
    omega
  · omega
  · exact h0
  · omega
  · exact h0

theorem flushAttrsStep_some (size : Nat) (sA : Bool) (st : FmtState) (line : List Char)
    (h0 : 0 ≤ st.indentLevel) :
    ∃ st1, flushAttrsStep size sA st line = some st1 ∧
      st1.indentLevel = st.indentLevel ∧ st1.inStruct = st.inStruct ∧
      st1.structFields = st.structFields := by
  unfold flushAttrsStep
  by_cases hf : (!st.attrs.isEmpty && (startsWithL (sLit "struct") line ||
      startsWithL (sLit "enum") line || startsWithL (sLit "pub") line)) = true
  · simp only [hf, eq_self_iff_true, if_true, indentStr_nonneg _ _ h0, Option.pure_def,
      Option.bind_eq_bind, Option.some_bind]
    exact ⟨_, rfl, rfl, rfl, rfl⟩
  · simp only [hf, Bool.false_eq_true, if_false, Option.pure_def]
    exact ⟨st, rfl, rfl, rfl, rfl⟩

theorem dispatchLine_some (size : Nat) (aF : Bool) (st1 : FmtState) (line : List Char)
    (h0 : 0 ≤ st1.indentLevel)
    (hcl : isCloseLine line = true → 1 ≤ st1.indentLevel) :
    ∃ st', dispatchLine size aF st1 line = some st' ∧
      st'.indentLevel = nextLevel st1.indentLevel line := by
  unfold dispatchLine
  by_cases hc : isCloseLine line = true
  · have hcB : (decide (line = sLit "\x7d") || startsWithL (sLit "\x7d") line) = true := hc
    simp only [hcB, eq_self_iff_true, if_true]
    have h1 : 1 ≤ st1.indentLevel := hcl hc
    have hind : indentStr (st1.indentLevel - 1) size =
        some (spaces ((st1.indentLevel - 1) * (size : Int)).toNat) :=
      indentStr_nonneg _ _ (by omega)
    by_cases hfl : (st1.inStruct && !st1.structFields.isEmpty && aF) = true
    · simp only [hfl, eq_self_iff_true, if_true,
        alignStructFields_eq st1.structFields (st1.indentLevel + 1) size
          (mul_nonneg (by omega) (Int.natCast_nonneg _)),
        Option.pure_def, Option.bind_eq_bind, Option.some_bind, hind]
      refine ⟨_, rfl, ?_⟩
      rw [nextLevel_of_close _ _ hc]
    · simp only [hfl, Bool.false_eq_true, if_false, Option.pure_def, Option.bind_eq_bind,
        Option.some_bind, hind]
      refine ⟨_, rfl, ?_⟩
      rw [nextLevel_of_close _ _ hc]
  · have hcF : isCloseLine line = false := by rwa [Bool.not_eq_true] at hc
    have hcB : (decide (line = sLit "\x7d") || startsWithL (sLit "\x7d") line) = false := hcF
    simp only [hcB, Bool.false_eq_true, if_false]
    by_cases hs : (startsWithL (sLit "struct") line || startsWithL (sLit "enum") line ||
        startsWithL (sLit "pub struct") line || startsWithL (sLit "pub enum") line) = true
    · simp only [hs, eq_self_iff_true, if_true, indentStr_nonneg _ _ h0, Option.pure_def,
        Option.bind_eq_bind, Option.some_bind]
      have hshape : ∃ c t, line = c :: t ∧ (c = 's' ∨ c = 'e' ∨ c = 'p') := by
        rcases Bool.or_eq_true_iff.mp hs with hrest | h4
        · rcases Bool.or_eq_true_iff.mp hrest with hrest2 | h3
          · rcases Bool.or_eq_true_iff.mp hrest2 with h1 | h2
            · obtain ⟨t, ht⟩ := startsWithL_cons _ _ _ h1
              exact ⟨'s', t, ht, Or.inl rfl⟩
            · obtain ⟨t, ht⟩ := startsWithL_cons _ _ _ h2
              exact ⟨'e', t, ht, Or.inr (Or.inl rfl)⟩
          · obtain ⟨t, ht⟩ := startsWithL_cons _ _ _ h3
            exact ⟨'p', t, ht, Or.inr (Or.inr rfl)⟩
        · obtain ⟨t, ht⟩ := startsWithL_cons _ _ _ h4
          exact ⟨'p', t, ht, Or.inr (Or.inr rfl)⟩
      obtain ⟨c, t, rfl, hcs⟩ := hshape
      have hnl : nextLevel st1.indentLevel (c :: t) =
          (if endsWithL (sLit "\x7b") (c :: t) then st1.indentLevel + 1
            else st1.indentLevel) := by
        unfold nextLevel
        rw [if_neg (by simp), if_neg ?hattr, if_neg ?hclose, if_pos hs]
        case hattr =>
          intro hattr
          rcases hcs with rfl | rfl | rfl <;> simp [startsWithL, List.isPrefixOf] at hattr
        case hclose => exact hc
      by_cases he : endsWithL (sLit "\x7b") (c :: t) = true
      · simp only [he, eq_self_iff_true, if_true]
        exact ⟨_, rfl, by rw [hnl, if_pos he]⟩
      · simp only [he, Bool.false_eq_true, if_false]
        exact ⟨_, rfl, by rw [hnl, if_neg he]⟩
    · simp only [hs, Bool.false_eq_true, if_false]
      by_cases hb : line = sLit "\x7b"
      · subst hb
        rw [if_pos rfl]
        simp only [indentStr_nonneg (st1.indentLevel + 1 - 1) size (by omega),
          Option.pure_def, Option.bind_eq_bind, Option.some_bind]
        refine ⟨_, rfl, ?_⟩
        rfl
      · rw [if_neg hb]
        have hnl : nextLevel st1.indentLevel line = st1.indentLevel := by
          unfold nextLevel
          by_cases h1 : line.isEmpty = true
          · rw [if_pos h1]
          · rw [if_neg h1]
            by_cases h2 : startsWithL (sLit "#[") line = true
            · rw [if_pos h2]
            · rw [if_neg h2, if_neg hc, if_neg hs, if_neg hb]
        by_cases hfld : (st1.inStruct && containsL (sLit ":") line) = true
        · simp only [hfld, eq_self_iff_true, if_true]
          exact ⟨_, rfl, hnl.symm⟩
        · simp only [hfld, Bool.false_eq_true, if_false, indentStr_nonneg _ _ h0,
            Option.pure_def, Option.bind_eq_bind, Option.some_bind]
          exact ⟨_, rfl, hnl.symm⟩

theorem processLine_some (size : Nat) (sA aF : Bool) (st : FmtState) (raw : List Char)
    (h0 : 0 ≤ st.indentLevel)
    (hcl : isCloseLine (jsTrim raw) = true → 1 ≤ st.indentLevel) :
    ∃ st', processLine size sA aF st raw = some st' ∧
      st'.indentLevel = nextLevel st.indentLevel (jsTrim raw) := by
  unfold processLine
  by_cases h1 : (jsTrim raw).isEmpty = true
  · simp only [h1, eq_self_iff_true, if_true]
    exact ⟨_, rfl, (nextLevel_of_blank _ _ h1).symm⟩
  · simp only [h1, Bool.false_eq_true, if_false]
    by_cases h2 : startsWithL (sLit "#[") (jsTrim raw) = true
    · simp only [h2, eq_self_iff_true, if_true]
      exact ⟨_, rfl, (nextLevel_of_attr _ _ h2).symm⟩
    · simp only [h2, Bool.false_eq_true, if_false]
      obtain ⟨st1, hst1, hl, hin, hfl⟩ := flushAttrsStep_some size sA st (jsTrim raw) h0
      rw [hst1]
      simp only [Option.bind_eq_bind, Option.some_bind]
      obtain ⟨st', hd, hlvl⟩ := dispatchLine_some size aF st1 (jsTrim raw)
        (by rw [hl]; exact h0) (by rw [hl]; exact hcl)
      exact ⟨st', hd, by rw [hlvl, hl]⟩

theorem runLines_balanced (size : Nat) (sA aF : Bool) (ls : List (List Char)) :
    ∀ st : FmtState, 0 ≤ st.indentLevel → balancedFrom st.indentLevel ls = true →
      ∃ st', runLines size sA aF st ls = some st' ∧ 0 ≤ st'.indentLevel := by
  induction ls with
  | nil => exact fun st h0 _ => ⟨st, rfl, h0⟩
  | cons raw ls ih =>
    intro st h0 hbal
    unfold balancedFrom at hbal
    simp only [Bool.and_eq_true] at hbal
    obtain ⟨hguard, hrest⟩ := hbal
    have hcl : isCloseLine (jsTrim raw) = true → 1 ≤ st.indentLevel := by
      intro hc
      rw [hc, if_pos rfl] at hguard
      exact of_decide_eq_true hguard
    obtain ⟨st1, hst1, hlvl⟩ := processLine_some size sA aF st raw h0 hcl
    have h0p : 0 ≤ st1.indentLevel := by
      rw [hlvl]
      exact nextLevel_nonneg _ _ h0 hcl
    have hrestp : balancedFrom st1.indentLevel ls = true := by
      rw [hlvl]
      exact hrest
    obtain ⟨st', hrun, hfin⟩ := ih st1 h0p hrestp
    refine ⟨st', ?_, hfin⟩
    unfold runLines
    rw [hst1]
    simp only [Option.bind_eq_bind, Option.some_bind]
    exact hrun

theorem finishFmt_some (size : Nat) (sA aF : Bool) (st : FmtState)
    (h0 : 0 ≤ st.indentLevel) :
    ∃ outs, finishFmt size sA aF st = some outs := by
  unfold finishFmt
  have hnn : 0 ≤ st.indentLevel * (size : Int) := mul_nonneg h0 (Int.natCast_nonneg _)
  by_cases h1 : (!st.structFields.isEmpty && aF) = true
  · simp only [h1, eq_self_iff_true, if_true, alignStructFields_eq _ _ _ hnn,
      Option.pure_def, Option.bind_eq_bind, Option.some_bind]
    by_cases h2 : (!(st.attrs).isEmpty) = true
    · simp only [h2, eq_self_iff_true, if_true, indentStr_nonneg _ _ h0, Option.some_bind]
      exact ⟨_, rfl⟩
    · simp only [h2, Bool.false_eq_true, if_false, Option.some_bind]
      exact ⟨_, rfl⟩
  · simp only [h1, Bool.false_eq_true, if_false, Option.pure_def, Option.bind_eq_bind,
      Option.some_bind]
    by_cases h2 : (!(st.attrs).isEmpty) = true
    · simp only [h2, eq_self_iff_true, if_true, indentStr_nonneg _ _ h0, Option.some_bind]
      exact ⟨_, rfl⟩
    · simp only [h2, Bool.false_eq_true, if_false, Option.some_bind]
      exact ⟨_, rfl⟩

/-- C1: corrected. The formatter does not throw exactly on brace-balanced documents: if every prefix of the line list keeps the running brace count nonnegative (`balancedFrom 0`), `formatDocument` returns a string; the counterexample shows an unmatched closing brace makes it throw. -/
theorem c1_amended (text : String) (size : Nat) (sA aF : Bool)
    (h : balancedFrom 0 (splitLines text.data) = true) :
    (formatDocument text size sA aF).isSome = true := by
  obtain ⟨st', hrun, h0p⟩ := runLines_balanced size sA aF (splitLines text.data) initFmt
    (by norm_num [initFmt]) h
  obtain ⟨outs, hfin⟩ := finishFmt_some size sA aF st' h0p
  unfold formatDocument formatLines
  rw [hrun]
  simp only [Option.bind_eq_bind, Option.some_bind]
  rw [hfin]
  rfl

/-- Witness for C1 on a balanced one-struct document. -/
theorem c1_witness : (formatDocument "struct S \x7b\na: b\n\x7d" 4 true true).isSome = true :=
  c1_amended "struct S \x7b\na: b\n\x7d" 4 true true (by decide)

theorem dropWhile_dropWhile (p : Char → Bool) (l : List Char) :
    (l.dropWhile p).dropWhile p = l.dropWhile p := by
  induction l with
  | nil => rfl
  | cons c t ih =>
    by_cases hc : p c = true
    · rw [List.dropWhile_cons_of_pos hc]
      exact ih
    · rw [List.dropWhile_cons_of_neg hc, List.dropWhile_cons_of_neg hc]

theorem dropWhile_head_false (p : Char → Bool) (l : List Char) (c : Char) (t : List Char)
    (h : l.dropWhile p = c :: t) : p c = false := by
  induction l with
  | nil => cases h
  | cons a u ih =>
    by_cases ha : p a = true
    · rw [List.dropWhile_cons_of_pos ha] at h
      exact ih h
    · rw [List.dropWhile_cons_of_neg ha] at h
      cases h
      exact Bool.eq_false_iff.mpr ha

theorem trimLeft_trimLeft (l : List Char) : trimLeft (trimLeft l) = trimLeft l :=
  dropWhile_dropWhile isWs l

theorem trimRight_trimRight (l : List Char) : trimRight (trimRight l) = trimRight l := by
  unfold trimRight
  rw [List.reverse_reverse, dropWhile_dropWhile]

theorem trimRight_isPrefix (l : List Char) : (trimRight l).isPrefixOf l = true := by
  unfold trimRight
  have hsuf : (l.reverse.dropWhile isWs).isSuffixOf l.reverse = true := by
    rw [List.isSuffixOf_iff_suffix]
    exact List.dropWhile_suffix isWs
  rw [List.isPrefixOf_iff_prefix]
  have := (List.isSuffixOf_iff_suffix.mp hsuf)
  have h2 := this.reverse
  simpa using h2

theorem dropWhile_eq_self_head (p : Char → Bool) (c : Char) (t : List Char)
    (h : (c :: t).dropWhile p = c :: t) : p c = false := by
  by_cases pc : p c = true
  · rw [List.dropWhile_cons_of_pos pc] at h
    have hlen : (t.dropWhile p).length ≤ t.length := (List.dropWhile_sublist p).length_le
    rw [h] at hlen
    simp at hlen
  · exact Bool.eq_false_iff.mpr pc

theorem trimLeft_spaces_append (n : Nat) (l : List Char) :
    trimLeft (spaces n ++ l) = trimLeft l := by
  induction n with
  | zero => rfl
  | succ m ih =>
    show trimLeft (' ' :: (spaces m ++ l)) = trimLeft l
    unfold trimLeft
    rw [List.dropWhile_cons_of_pos (by rfl)]
    exact ih

theorem jsTrim_spaces_append (n : Nat) (l : List Char) :
    jsTrim (spaces n ++ l) = jsTrim l := by
  unfold jsTrim
  rw [trimLeft_spaces_append]

theorem trimLeft_trimRight_of_left (l : List Char) (h : trimLeft l = l) :
    trimLeft (trimRight l) = trimRight l := by
  cases htr : trimRight l with
  | nil => rfl
  | cons c t =>
    have hpre : (trimRight l).isPrefixOf l = true := trimRight_isPrefix l
    rw [htr] at hpre
    rw [List.isPrefixOf_iff_prefix] at hpre
    obtain ⟨rest, hrest⟩ := hpre
    have hc : isWs c = false := by
      refine dropWhile_eq_self_head isWs c (t ++ rest) ?_
      have : l = c :: (t ++ rest) := by rw [← hrest]; simp
      rw [← this]
      exact h
    unfold trimLeft
    rw [List.dropWhile_cons_of_neg (by rw [hc]; exact Bool.false_ne_true)]

theorem trimLeft_jsTrim (l : List Char) : trimLeft (jsTrim l) = jsTrim l := by
  unfold jsTrim
  exact trimLeft_trimRight_of_left _ (trimLeft_trimLeft l)

theorem trimRight_jsTrim (l : List Char) : trimRight (jsTrim l) = jsTrim l := by
  unfold jsTrim
  exact trimRight_trimRight _

theorem jsTrim_idem (l : List Char) : jsTrim (jsTrim l) = jsTrim l := by
  conv_lhs => rw [jsTrim]
  rw [trimLeft_jsTrim, trimRight_jsTrim]

theorem jsTrim_spaces_trimmed (n : Nat) (l : List Char) :
    jsTrim (spaces n ++ jsTrim l) = jsTrim l := by
  rw [jsTrim_spaces_append, jsTrim_idem]

theorem trimmed_head_not_ws (l : List Char) (c : Char) (t : List Char)
    (h : jsTrim l = l) (hl : l = c :: t) : isWs c = false := by
  have h1 : trimLeft l = l := by
    conv_rhs => rw [← h]
    conv_lhs => rw [← h]
    exact trimLeft_jsTrim l
  subst hl
  exact dropWhile_eq_self_head isWs c t h1

theorem trimRight_eq_self_of_last (x : List Char) (c : Char) (t : List Char)
    (hrev : x.reverse = c :: t) (hc : isWs c = false) : trimRight x = x := by
  unfold trimRight
  rw [hrev, List.dropWhile_cons_of_neg (by rw [hc]; exact Bool.false_ne_true), ← hrev,
    List.reverse_reverse]

theorem trimmed_rev_head_not_ws (w : List Char) (c : Char) (t : List Char)
    (h : jsTrim w = w) (hrev : w.reverse = c :: t) : isWs c = false := by
  have h1 : trimRight w = w := by
    conv_rhs => rw [← h]
    conv_lhs => rw [← h]
    exact trimRight_jsTrim w
  unfold trimRight at h1
  rw [hrev] at h1
  have h2 : (c :: t).dropWhile isWs = c :: t := by
    have := congrArg List.reverse h1
    rw [List.reverse_reverse] at this
    rw [this, hrev]
  exact dropWhile_eq_self_head isWs c t h2

theorem trimRight_append_colon_space (u : List Char) :
    trimRight (u ++ [':', ' ']) = u ++ [':'] := by
  unfold trimRight
  rw [List.reverse_append]
  show ((' ' :: ':' :: u.reverse).dropWhile isWs).reverse = u ++ [':']
  rw [List.dropWhile_cons_of_pos (by rfl),
    List.dropWhile_cons_of_neg (by intro hc; cases hc)]
  simp

theorem trimRight_append_of_last (u w : List Char) (c : Char) (t : List Char)
    (hrev : w.reverse = c :: t) (hc : isWs c = false) : trimRight (u ++ w) = u ++ w := by
  refine trimRight_eq_self_of_last _ c (t ++ u.reverse) ?_ hc
  rw [List.reverse_append, hrev]
  rfl

theorem prefix_append_split {xs ys zs : List Char} (h : xs <+: ys ++ zs) :
    xs <+: ys ∨ ∃ q, xs = ys ++ q ∧ q <+: zs := by
  induction ys generalizing xs with
  | nil =>
    right
    exact ⟨xs, rfl, by simpa using h⟩
  | cons y yt ih =>
    cases xs with
    | nil => exact Or.inl (List.nil_prefix)
    | cons x xt =>
      rw [List.cons_append, List.cons_prefix_cons] at h
      obtain ⟨rfl, h2⟩ := h
      rcases ih h2 with h3 | ⟨q, rfl, hq⟩
      · exact Or.inl (List.cons_prefix_cons.mpr ⟨rfl, h3⟩)
      · exact Or.inr ⟨q, rfl, hq⟩

theorem startsWith_emit_transfer (tok n : List Char) (k : Nat) (tail2 : List Char)
    (hcolon : ':' ∉ tok) (hlast : ∀ c t, tok.reverse = c :: t → c ≠ ' ')
    (h : startsWithL tok (n ++ spaces k ++ ':' :: tail2) = true) :
    startsWithL tok n = true := by
  rw [startsWithL, List.isPrefixOf_iff_prefix] at h
  rw [startsWithL, List.isPrefixOf_iff_prefix]
  rw [List.append_assoc] at h
  rcases prefix_append_split h with h1 | ⟨q, rfl, hq⟩
  · exact h1
  · cases hqnil : q with
    | nil =>
      subst hqnil
      simpa using List.prefix_refl (l := n)
    | cons qc qt =>
      subst hqnil
      exfalso
      have hqrev : ∃ c t, (qc :: qt).reverse = c :: t := by
        cases hr : (qc :: qt).reverse with
        | nil => exact absurd (congrArg List.length hr) (by simp)
        | cons c t => exact ⟨c, t, rfl⟩
      obtain ⟨c, t, hrev⟩ := hqrev
      have hlastc : c ≠ ' ' := by
        refine hlast c (t ++ n.reverse) ?_
        rw [List.reverse_append, hrev]
        rfl
      have hcmem : c ∈ qc :: qt := by
        have h5 : c ∈ (qc :: qt).reverse := by rw [hrev]; exact List.mem_cons_self _ _
        exact List.mem_reverse.mp h5
      rcases prefix_append_split hq with h2 | ⟨q2, hq2eq, hq2⟩
      · have : c = ' ' := List.eq_of_mem_replicate (h2.subset hcmem)
        exact hlastc this
      · cases hq2nil : q2 with
        | nil =>
          subst hq2nil
          rw [List.append_nil] at hq2eq
          have : c = ' ' := List.eq_of_mem_replicate (hq2eq ▸ hcmem)
          exact hlastc this
        | cons q2c q2t =>
          subst hq2nil
          have hq2head : q2c = ':' := by
            have := List.cons_prefix_cons.mp hq2
            exact this.1
          have : ':' ∈ qc :: qt := by
            rw [hq2eq]
            refine List.mem_append.mpr (Or.inr ?_)
            rw [hq2head] at *
            exact List.mem_cons_self _ _
          exact hcolon (List.mem_append.mpr (Or.inr this))

theorem trimRight_append_spaces (u : List Char) (k : Nat) :
    trimRight (u ++ spaces k) = trimRight u := by
  unfold trimRight
  rw [List.reverse_append]
  congr 1
  have hrep : (spaces k).reverse = spaces k := by
    unfold spaces
    exact List.reverse_replicate _ _
  rw [hrep]
  exact trimLeft_spaces_append k u.reverse

theorem trimLeft_cons_not_ws (c : Char) (x : List Char) (h : isWs c = false) :
    trimLeft (c :: x) = c :: x := by
  unfold trimLeft
  rw [List.dropWhile_cons_of_neg (by rw [h]; exact Bool.false_ne_true)]

theorem idxOf?_some_contains (sub l : List Char) (k : Nat) (h : idxOf? sub l = some k) :
    containsL sub l = true := by
  induction l generalizing k with
  | nil =>
    unfold idxOf? at h
    split at h
    · rename_i hs
      unfold containsL
      exact hs
    · cases h
  | cons c t ih =>
    unfold idxOf? at h
    unfold containsL
    split at h
    · rename_i hs
      rw [hs]
      rfl
    · cases hs : idxOf? sub t with
      | none => rw [hs] at h; cases h
      | some kp =>
        rw [ih kp hs]
        exact Bool.or_true _

theorem contains_colon_ne_nil (l : List Char) (h : containsL (sLit ":") l = true) :
    l ≠ [] := by
  intro hnil
  subst hnil
  cases h

theorem isCloseLine_startsWith (l : List Char) (h : isCloseLine l = true) :
    startsWithL (sLit "\x7d") l = true := by
  unfold isCloseLine at h
  rcases Bool.or_eq_true_iff.mp h with h1 | h2
  · rw [of_decide_eq_true h1]
    rfl
  · exact h2

theorem startsWith_trans_prefix (tok n f : List Char) (h1 : startsWithL tok n = true)
    (h2 : n <+: f) : startsWithL tok f = true := by
  rw [startsWithL, List.isPrefixOf_iff_prefix] at h1 ⊢
  exact h1.trans h2

theorem prefix_head_eq (y : List Char) (c : Char) (x : List Char) (cy : Char) (t : List Char)
    (hpre : y <+: c :: x) (hy : y = cy :: t) : cy = c := by
  subst hy
  exact (List.cons_prefix_cons.mp hpre).1

theorem trimRight_prefix_pre (l : List Char) : trimRight l <+: l := by
  rw [← List.isPrefixOf_iff_prefix]
  exact trimRight_isPrefix l

theorem jsTrim_cons_not_ws (c : Char) (x : List Char) (h : isWs c = false) :
    jsTrim (c :: x) = trimRight (c :: x) := by
  unfold jsTrim
  rw [trimLeft_cons_not_ws c x h]

theorem name_shape (f : List Char) (hf : goodField f) (n r : List Char)
    (hp : parseField f = (n, r)) (hr : r ≠ []) :
    ∃ c0 ntail, n = c0 :: ntail ∧ isWs c0 = false ∧ n <+: f ∧ jsTrim n = n := by
  obtain ⟨ci, hix, hci, hn, hrr⟩ := parseField_pos f n r hp hr
  obtain ⟨c0, ft, hfsh⟩ : ∃ c0 ft, f = c0 :: ft := by
    cases hfc : f with
    | nil => exact absurd hfc (contains_colon_ne_nil f hf.2.1)
    | cons a t => exact ⟨a, t, rfl⟩
  have hc0 : isWs c0 = false := trimmed_head_not_ws f c0 ft hf.1 hfsh
  obtain ⟨cip, rfl⟩ : ∃ cip, ci = cip + 1 := ⟨ci - 1, by omega⟩
  have htake : f.take (cip + 1) = c0 :: ft.take cip := by
    rw [hfsh, List.take_succ_cons]
  have hn2 : n = trimRight (c0 :: ft.take cip) := by
    rw [hn, htake, jsTrim_cons_not_ws c0 _ hc0]
  have hnnil : n ≠ [] := by
    rw [hn, htake]
    exact jsTrim_ne_nil_of_head c0 _ hc0
  obtain ⟨cn, ntail, hnsh⟩ : ∃ cn ntail, n = cn :: ntail := by
    cases hnc : n with
    | nil => exact absurd hnc hnnil
    | cons a t => exact ⟨a, t, rfl⟩
  have hcn : cn = c0 :=
    prefix_head_eq n c0 (ft.take cip) cn ntail (hn2 ▸ trimRight_prefix_pre _) hnsh
  have hnpre : n <+: f := by
    rw [hn2, hfsh]
    refine (trimRight_prefix_pre _).trans ?_
    have := List.take_prefix (cip + 1) f
    rw [hfsh, List.take_succ_cons] at this
    exact this
  exact ⟨c0, ntail, by rw [hnsh, hcn], hc0, hnpre, by rw [hn]; exact jsTrim_idem _⟩

theorem rest_shape (f : List Char) (n r : List Char) (hp : parseField f = (n, r))
    (hr : r ≠ []) : ∃ rt, r = ':' :: rt := by
  obtain ⟨ci, hix, hci, hn, hrr⟩ := parseField_pos f n r hp hr
  have hdrop := idxOf?_isPrefixOf_drop _ _ _ hix
  obtain ⟨drest, hd⟩ : ∃ drest, f.drop ci = ':' :: drest := by
    cases hd : f.drop ci with
    | nil => rw [hd] at hdrop; cases hdrop
    | cons a u =>
      rw [hd] at hdrop
      simp only [List.isPrefixOf, Bool.and_eq_true, beq_iff_eq] at hdrop
      exact ⟨u, by rw [hdrop.1]⟩
  have hr2 : r = trimRight (':' :: drest) := by
    rw [hrr, hd, jsTrim_cons_not_ws ':' _ rfl]
  obtain ⟨rc, rt, hrsh⟩ : ∃ rc rt, r = rc :: rt := by
    cases hrc : r with
    | nil => exact absurd hrc hr
    | cons a t => exact ⟨a, t, rfl⟩
  have : rc = ':' :=
    prefix_head_eq r ':' drest rc rt (hr2 ▸ trimRight_prefix_pre _) hrsh
  exact ⟨rt, by rw [hrsh, this]⟩

theorem emit_body_trim (n : List Char) (c0 : Char) (ntail : List Char)
    (hnsh : n = c0 :: ntail) (hc0 : isWs c0 = false) (k : Nat) (w : List Char)
    (hw : jsTrim w = w) :
    jsTrim (n ++ spaces k ++ ':' :: ' ' :: w) =
      n ++ spaces k ++ ':' :: (if w.isEmpty then [] else ' ' :: w) := by
  have hhead : jsTrim (n ++ spaces k ++ ':' :: ' ' :: w) =
      trimRight (n ++ spaces k ++ ':' :: ' ' :: w) := by
    rw [hnsh, List.cons_append, List.cons_append]
    exact jsTrim_cons_not_ws c0 _ hc0
  rw [hhead]
  cases hwc : w with
  | nil =>
    simp only [List.isEmpty_nil, if_true]
    have h1 : n ++ spaces k ++ ':' :: ' ' :: ([] : List Char) =
        (n ++ spaces k) ++ [':', ' '] := by simp
    have h2 : n ++ spaces k ++ ':' :: ([] : List Char) = (n ++ spaces k) ++ [':'] := by simp
    rw [h1, h2, trimRight_append_colon_space]
  | cons wc wt =>
    simp only [List.isEmpty_cons, Bool.false_eq_true, if_false]
    obtain ⟨cw, tw, hrev⟩ : ∃ cw tw, w.reverse = cw :: tw := by
      cases hr : w.reverse with
      | nil =>
        exfalso
        have := congrArg List.length hr
        rw [hwc] at this
        simp at this
      | cons a t => exact ⟨a, t, rfl⟩
    have hcw : isWs cw = false := trimmed_rev_head_not_ws w cw tw hw hrev
    have h1 : n ++ spaces k ++ ':' :: ' ' :: wc :: wt =
        (n ++ spaces k ++ [':', ' ']) ++ wc :: wt := by
      simp
    rw [h1]
    have h2 := trimRight_append_of_last (n ++ spaces k ++ [':', ' ']) (wc :: wt) cw tw
      (by rw [← hwc]; exact hrev) hcw
    simpa only [List.append_assoc] using h2

theorem parse_pre_colon (n : List Char) (c0 : Char) (ntail : List Char)
    (hnsh : n = c0 :: ntail) (hc0 : isWs c0 = false) (hntrim : jsTrim n = n)
    (hncolon : ':' ∉ n) (k : Nat) (tail2 : List Char)
    (htail : jsTrim (':' :: tail2) = ':' :: tail2) :
    parseField ((n ++ spaces k) ++ ':' :: tail2) = (n, ':' :: tail2) := by
  have hprecolon : ':' ∉ n ++ spaces k := by
    intro hm
    rcases List.mem_append.mp hm with h1 | h2
    · exact hncolon h1
    · exact absurd (List.eq_of_mem_replicate h2) (by decide)
  have hidx := idxOf?_spaced_colon (n ++ spaces k) tail2 hprecolon
  have hpos : 0 < (n ++ spaces k).length := by
    rw [hnsh]
    simp
  unfold parseField
  rw [hidx]
  dsimp only
  rw [if_pos hpos, List.take_left, List.drop_left, htail]
  have hpren : jsTrim (n ++ spaces k) = n := by
    have hh : jsTrim (n ++ spaces k) = trimRight (n ++ spaces k) := by
      rw [hnsh, List.cons_append]
      exact jsTrim_cons_not_ws c0 _ hc0
    rw [hh, trimRight_append_spaces]
    conv_lhs => rw [← hntrim]
    rw [trimRight_jsTrim, hntrim]
  rw [hpren]

theorem startsWith_emit_false (tok n f : List Char) (k : Nat) (tail2 : List Char)
    (hcolon : ':' ∉ tok) (hlast : ∀ c t, tok.reverse = c :: t → c ≠ ' ')
    (hff : startsWithL tok f = false) (hnpre : n <+: f) :
    startsWithL tok (n ++ spaces k ++ ':' :: tail2) = false := by
  cases hsw : startsWithL tok (n ++ spaces k ++ ':' :: tail2) with
  | false => rfl
  | true =>
    have h1 := startsWith_emit_transfer tok n k tail2 hcolon hlast hsw
    have h2 := startsWith_trans_prefix tok n f h1 hnpre
    rw [hff] at h2
    cases h2

theorem emit_stable (m mx : Nat) (f : List Char) (hf : goodField f) :
    goodField (jsTrim (emitField (spaces m) mx (parseField f))) ∧
    '\n' ∉ emitField (spaces m) mx (parseField f) ∧
    (parseField (jsTrim (emitField (spaces m) mx (parseField f)))).1 = (parseField f).1 ∧
    (parseField (jsTrim (emitField (spaces m) mx (parseField f)))).2.isEmpty =
      (parseField f).2.isEmpty ∧
    emitField (spaces m) mx (parseField (jsTrim (emitField (spaces m) mx (parseField f)))) =
      emitField (spaces m) mx (parseField f) := by
  obtain ⟨hftrim, hfcol, hfattr, hfclose, hfstruct, hfnl⟩ := hf
  cases hp2 : (parseField f).2 with
  | nil =>
    have hp : parseField f = ((parseField f).1, []) := by rw [← hp2]
    have hn : (parseField f).1 = f := parseField_nil_snd f (parseField f).1 hp
    have ha : emitField (spaces m) mx (parseField f) = spaces m ++ f := by
      unfold emitField
      rw [hp2, hn]
      rfl
    have htA2 : jsTrim (spaces m ++ f) = f := by rw [jsTrim_spaces_append, hftrim]
    rw [ha, htA2]
    refine ⟨⟨hftrim, hfcol, hfattr, hfclose, hfstruct, hfnl⟩, ?_, by rw [hn], ?_⟩
    · intro hm
      rcases List.mem_append.mp hm with h1 | h2
      · exact absurd (List.eq_of_mem_replicate h1) (by decide)
      · exact hfnl h2
    · exact ⟨by rw [hp2], ha⟩
  | cons rc rt =>
    have hrne : (parseField f).2 ≠ [] := by rw [hp2]; exact List.cons_ne_nil _ _
    obtain ⟨c0, ntail, hnsh, hc0, hnpre, hntrim⟩ :=
      name_shape f ⟨hftrim, hfcol, hfattr, hfclose, hfstruct, hfnl⟩ (parseField f).1
        (parseField f).2 rfl hrne
    have hncolon : ':' ∉ (parseField f).1 :=
      parseField_name_colon_free f (parseField f).1 (parseField f).2 rfl hrne
    have hwtrim : jsTrim (jsTrim ((parseField f).2.drop 1)) =
        jsTrim ((parseField f).2.drop 1) := jsTrim_idem _
    have hbody : emitField (spaces m) mx (parseField f) =
        spaces m ++ ((parseField f).1 ++ spaces (mx - (parseField f).1.length) ++
          ':' :: ' ' :: jsTrim ((parseField f).2.drop 1)) := by
      unfold emitField
      rw [hp2]
      simp only [List.isEmpty_cons, Bool.false_eq_true, if_false, List.append_assoc]
    have htA : jsTrim (emitField (spaces m) mx (parseField f)) =
        (parseField f).1 ++ spaces (mx - (parseField f).1.length) ++
          ':' :: (if (jsTrim ((parseField f).2.drop 1)).isEmpty then []
            else ' ' :: jsTrim ((parseField f).2.drop 1)) := by
      rw [hbody, jsTrim_spaces_append]
      exact emit_body_trim _ c0 ntail hnsh hc0 _ _ hwtrim
    have hwsub : List.Sublist (jsTrim ((parseField f).2.drop 1)) f := by
      obtain ⟨ci, hix, hci, hnn, hrr⟩ :=
        parseField_pos f (parseField f).1 (parseField f).2 rfl hrne
      refine (jsTrim_sublist _).trans ?_
      refine (List.drop_sublist 1 _).trans ?_
      rw [hrr]
      exact (jsTrim_sublist _).trans (List.drop_sublist ci f)
    have hemitnl : '\n' ∉ emitField (spaces m) mx (parseField f) := by
      rw [hbody]
      intro hm
      simp only [List.mem_append, List.mem_cons] at hm
      rcases hm with h1 | (h2 | h3) | h4 | h5 | h6
      · exact absurd (List.eq_of_mem_replicate h1) (by decide)
      · exact hfnl (hnpre.subset h2)
      · exact absurd (List.eq_of_mem_replicate h3) (by decide)
      · exact absurd h4 (by decide)
      · exact absurd h5 (by decide)
      · exact hfnl (hwsub.subset h6)
    have htail_trim : jsTrim (':' :: (if (jsTrim ((parseField f).2.drop 1)).isEmpty then []
        else ' ' :: jsTrim ((parseField f).2.drop 1))) =
        ':' :: (if (jsTrim ((parseField f).2.drop 1)).isEmpty then []
          else ' ' :: jsTrim ((parseField f).2.drop 1)) := by
      cases hwc : jsTrim ((parseField f).2.drop 1) with
      | nil => decide
      | cons wc wt =>
        simp only [List.isEmpty_cons, Bool.false_eq_true, if_false]
        obtain ⟨cw, tw, hrev⟩ : ∃ cw tw, (wc :: wt).reverse = cw :: tw := by
          cases hr : (wc :: wt).reverse with
          | nil => exact absurd (congrArg List.length hr) (by simp)
          | cons a t => exact ⟨a, t, rfl⟩
        have hcw : isWs cw = false := by
          refine trimmed_rev_head_not_ws (wc :: wt) cw tw ?_ hrev
          rw [← hwc]
          exact hwtrim
        have h1 : (':' :: ' ' :: wc :: wt : List Char) = [':', ' '] ++ wc :: wt := rfl
        rw [jsTrim_cons_not_ws ':' _ rfl, h1,
          trimRight_append_of_last [':', ' '] (wc :: wt) cw tw hrev hcw]
    have hparse : parseField (jsTrim (emitField (spaces m) mx (parseField f))) =
        ((parseField f).1, ':' :: (if (jsTrim ((parseField f).2.drop 1)).isEmpty then []
          else ' ' :: jsTrim ((parseField f).2.drop 1))) := by
      rw [htA]
      rw [show (parseField f).1 ++ spaces (mx - (parseField f).1.length) ++
          ':' :: (if (jsTrim ((parseField f).2.drop 1)).isEmpty then []
            else ' ' :: jsTrim ((parseField f).2.drop 1)) =
          ((parseField f).1 ++ spaces (mx - (parseField f).1.length)) ++
          ':' :: (if (jsTrim ((parseField f).2.drop 1)).isEmpty then []
            else ' ' :: jsTrim ((parseField f).2.drop 1)) by simp]
      exact parse_pre_colon _ c0 ntail hnsh hc0 hntrim hncolon _ _ htail_trim
    refine ⟨?_, hemitnl, by rw [hparse], by rw [hparse, hp2]; rfl, ?_⟩
    · refine ⟨jsTrim_idem _, ?_, ?_, ?_, ?_, ?_⟩
      · rw [htA]
        refine idxOf?_some_contains _ _ ((parseField f).1 ++
          spaces (mx - (parseField f).1.length)).length ?_
        rw [show (parseField f).1 ++ spaces (mx - (parseField f).1.length) ++
            ':' :: (if (jsTrim ((parseField f).2.drop 1)).isEmpty then []
              else ' ' :: jsTrim ((parseField f).2.drop 1)) =
            ((parseField f).1 ++ spaces (mx - (parseField f).1.length)) ++
            ':' :: (if (jsTrim ((parseField f).2.drop 1)).isEmpty then []
              else ' ' :: jsTrim ((parseField f).2.drop 1)) by simp]
        refine idxOf?_spaced_colon _ _ ?_
        intro hm
        rcases List.mem_append.mp hm with h1 | h2
        · exact hncolon h1
        · exact absurd (List.eq_of_mem_replicate h2) (by decide)
      · rw [htA]
        exact startsWith_emit_false _ _ f _ _ (by decide)
          (by intro c t hh; cases hh; decide) hfattr hnpre
      · rw [htA]
        cases hcl : isCloseLine ((parseField f).1 ++
            spaces (mx - (parseField f).1.length) ++
            ':' :: (if (jsTrim ((parseField f).2.drop 1)).isEmpty then []
              else ' ' :: jsTrim ((parseField f).2.drop 1))) with
        | false => rfl
        | true =>
          have h1 := isCloseLine_startsWith _ hcl
          have hclosef : startsWithL (sLit "\x7d") f = false := by
            cases hsw : startsWithL (sLit "\x7d") f with
            | false => rfl
            | true =>
              have : isCloseLine f = true := by
                unfold isCloseLine
                rw [hsw]
                exact Bool.or_true _
              rw [hfclose] at this
              cases this
          have h2 := startsWith_emit_false (sLit "\x7d") (parseField f).1 f
            (mx - (parseField f).1.length)
            (if (jsTrim ((parseField f).2.drop 1)).isEmpty then []
              else ' ' :: jsTrim ((parseField f).2.drop 1)) (by decide)
            (by intro c t hh; cases hh; decide) hclosef hnpre
          rw [h2] at h1
          cases h1
      · rw [htA]
        simp only [Bool.or_eq_false_iff] at hfstruct
        obtain ⟨⟨⟨hs1, hs2⟩, hs3⟩, hs4⟩ := hfstruct
        rw [startsWith_emit_false (sLit "struct") _ f _ _ (by decide)
            (by intro c t hh; cases hh; decide) hs1 hnpre,
          startsWith_emit_false (sLit "enum") _ f _ _ (by decide)
            (by intro c t hh; cases hh; decide) hs2 hnpre,
          startsWith_emit_false (sLit "pub struct") _ f _ _ (by decide)
            (by intro c t hh; cases hh; decide) hs3 hnpre,
          startsWith_emit_false (sLit "pub enum") _ f _ _ (by decide)
            (by intro c t hh; cases hh; decide) hs4 hnpre]
        rfl
      · intro hm
        exact hemitnl ((jsTrim_sublist _).subset hm)
    · have hdrop : jsTrim ((if (jsTrim ((parseField f).2.drop 1)).isEmpty then []
          else ' ' :: jsTrim ((parseField f).2.drop 1) : List Char)) =
          jsTrim ((parseField f).2.drop 1) := by
        cases hwc : jsTrim ((parseField f).2.drop 1) with
        | nil => rfl
        | cons wc wt =>
          simp only [List.isEmpty_cons, Bool.false_eq_true, if_false]
          have h1 : (' ' :: wc :: wt : List Char) = spaces 1 ++ wc :: wt := rfl
          rw [h1, jsTrim_spaces_append, ← hwc, hwtrim, hwc]
      rw [hparse, hbody]
      unfold emitField
      dsimp only
      simp only [List.isEmpty_cons, Bool.false_eq_true, if_false, List.drop_succ_cons,
        List.drop_zero]
      rw [hdrop]
      simp [List.append_assoc]

theorem flushAttrsStep_empty (size : Nat) (sA : Bool) (st : FmtState) (line : List Char)
    (h : st.attrs = []) : flushAttrsStep size sA st line = some st := by
  unfold flushAttrsStep
  rw [h]
  rfl

theorem indentStr_some_spaces (lvl : Int) (size : Nat) (i : List Char)
    (h : indentStr lvl size = some i) : i = spaces ((lvl * (size : Int)).toNat) := by
  unfold indentStr jsSpaceRepeat at h
  split at h
  · cases h
  · cases h
    rfl

theorem contains_ne_brace (l : List Char) (h : containsL (sLit ":") l = true) :
    l ≠ sLit "\x7b" := by
  intro hl
  rw [hl] at h
  cases h

theorem goodField_isEmpty_false (l : List Char) (hg : goodField l) : l.isEmpty = false := by
  cases hl : l with
  | nil => exact absurd hl (contains_colon_ne_nil l hg.2.1)
  | cons a t => rfl

theorem runLines_cons (size : Nat) (sA aF : Bool) (st : FmtState) (x : List Char)
    (xs : List (List Char)) :
    runLines size sA aF st (x :: xs) =
      (processLine size sA aF st x).bind (fun s => runLines size sA aF s xs) := by
  rfl

theorem processLine_field (size : Nat) (sA aF : Bool) (st : FmtState) (a : List Char)
    (hattrs : st.attrs = []) (hin : st.inStruct = true) (hg : goodField (jsTrim a)) :
    processLine size sA aF st a =
      some { st with structFields := st.structFields ++ [jsTrim a] } := by
  obtain ⟨hgt, hgc, hga, hgcl, hgs, hgn⟩ := hg
  unfold processLine
  simp only [goodField_isEmpty_false (jsTrim a) ⟨hgt, hgc, hga, hgcl, hgs, hgn⟩,
    Bool.false_eq_true, if_false, hga,
    flushAttrsStep_empty size sA st (jsTrim a) hattrs,
    Option.bind_eq_bind, Option.some_bind]
  unfold dispatchLine
  have hclB : (decide (jsTrim a = sLit "\x7d") || startsWithL (sLit "\x7d") (jsTrim a)) =
      false := hgcl
  rw [hclB]
  simp only [Bool.false_eq_true, if_false, hgs, if_neg (contains_ne_brace _ hgc), hin, hgc]
  rfl

theorem runLines_append (size : Nat) (sA aF : Bool) (xs ys : List (List Char)) :
    ∀ st, runLines size sA aF st (xs ++ ys) =
      (runLines size sA aF st xs).bind (fun s => runLines size sA aF s ys) := by
  induction xs with
  | nil => intro st; rfl
  | cons x xt ih =>
    intro st
    show runLines size sA aF st (x :: (xt ++ ys)) = _
    rw [runLines_cons, runLines_cons]
    cases hp : processLine size sA aF st x with
    | none => rfl
    | some st1 =>
      simp only [Option.some_bind]
      exact ih st1

theorem runLines_buffer (size : Nat) (sA aF : Bool) (A : List (List Char)) :
    ∀ st : FmtState, st.attrs = [] → st.inStruct = true →
      (∀ a ∈ A, goodField (jsTrim a)) →
      runLines size sA aF st A =
        some { st with structFields := st.structFields ++ A.map jsTrim } := by
  induction A with
  | nil =>
    intro st h1 h2 h3
    show some st = _
    congr 1
    cases st
    simp
  | cons a at' ih =>
    intro st h1 h2 h3
    rw [runLines_cons,
      processLine_field size sA aF st a h1 h2 (h3 a (List.mem_cons_self _ _))]
    simp only [Option.bind_eq_bind, Option.some_bind]
    rw [ih { st with structFields := st.structFields ++ [jsTrim a] } h1 h2
      (fun x hx => h3 x (List.mem_cons_of_mem _ hx))]
    simp [List.append_assoc]

theorem forall2_map_of_mem {α β : Type} (R : β → β → Prop) (g h : α → β) (F : List α)
    (hR : ∀ f ∈ F, R (g f) (h f)) : List.Forall₂ R (F.map g) (F.map h) := by
  induction F with
  | nil => exact List.Forall₂.nil
  | cons a t ih =>
    exact List.Forall₂.cons (hR a (List.mem_cons_self _ _))
      (ih (fun x hx => hR x (List.mem_cons_of_mem _ hx)))

theorem maxFieldLen_foldl_congr (ps qs : List (List Char × List Char))
    (h : List.Forall₂ (fun p q => p.1.length = q.1.length ∧ p.2.isEmpty = q.2.isEmpty) ps qs) :
    ∀ acc, ps.foldl (fun m p => if p.2.isEmpty then m else max m p.1.length) acc =
      qs.foldl (fun m p => if p.2.isEmpty then m else max m p.1.length) acc := by
  induction h with
  | nil => intro acc; rfl
  | cons hpq _ ih =>
    intro acc
    simp only [List.foldl_cons]
    rw [hpq.1, hpq.2]
    exact ih _

theorem maxFieldLen_congr (ps qs : List (List Char × List Char))
    (h : List.Forall₂ (fun p q => p.1.length = q.1.length ∧ p.2.isEmpty = q.2.isEmpty) ps qs) :
    maxFieldLen ps = maxFieldLen qs :=
  maxFieldLen_foldl_congr ps qs h 0

theorem aligned_mem_good (F : List (List Char)) (m mx : Nat)
    (hF : ∀ f ∈ F, goodField f) :
    ∀ a ∈ (F.map parseField).map (emitField (spaces m) mx),
      goodField (jsTrim a) ∧ '\n' ∉ a := by
  intro a ha
  rw [List.map_map] at ha
  obtain ⟨f, hfF, hfa⟩ := List.mem_map.mp ha
  have hes := emit_stable m mx f (hF f hfF)
  rw [show (emitField (spaces m) mx ∘ parseField) f = emitField (spaces m) mx (parseField f)
    from rfl] at hfa
  rw [← hfa]
  exact ⟨hes.1, hes.2.1⟩

theorem align_stable (F : List (List Char)) (lvl : Int) (size : Nat)
    (hnn : 0 ≤ lvl * (size : Int)) (hF : ∀ f ∈ F, goodField f) :
    alignStructFields
      (((F.map parseField).map
        (emitField (spaces (lvl * (size : Int)).toNat)
          (maxFieldLen (F.map parseField)))).map jsTrim) lvl size =
    some ((F.map parseField).map
      (emitField (spaces (lvl * (size : Int)).toNat) (maxFieldLen (F.map parseField)))) := by
  rw [alignStructFields_eq _ lvl size hnn]
  have hmap1 : (((F.map parseField).map
      (emitField (spaces (lvl * (size : Int)).toNat)
        (maxFieldLen (F.map parseField)))).map jsTrim).map parseField =
      F.map (fun f => parseField (jsTrim
        (emitField (spaces (lvl * (size : Int)).toNat)
          (maxFieldLen (F.map parseField)) (parseField f)))) := by
    simp [List.map_map, Function.comp]
  have hmx : maxFieldLen ((((F.map parseField).map
      (emitField (spaces (lvl * (size : Int)).toNat)
        (maxFieldLen (F.map parseField)))).map jsTrim).map parseField) =
      maxFieldLen (F.map parseField) := by
    rw [hmap1]
    refine maxFieldLen_congr _ _ (forall2_map_of_mem _ _ _ F (fun f hf => ?_))
    have hes := emit_stable (lvl * (size : Int)).toNat
      (maxFieldLen (F.map parseField)) f (hF f hf)
    exact ⟨by rw [hes.2.2.1], hes.2.2.2.1⟩
  rw [hmx, hmap1, List.map_map, List.map_map]
  congr 1
  refine List.map_congr_left (fun f hf => ?_)
  have hes := emit_stable (lvl * (size : Int)).toNat
    (maxFieldLen (F.map parseField)) f (hF f hf)
  simpa [Function.comp] using hes.2.2.2.2

theorem nl_not_mem_spaces (m : Nat) : '\n' ∉ spaces m := by
  intro h
  have he := List.eq_of_mem_replicate h
  cases he

theorem nl_not_mem_spaces_append (m : Nat) (l : List Char) (hl : '\n' ∉ l) :
    '\n' ∉ spaces m ++ l := by
  intro h
  rcases List.mem_append.mp h with h1 | h2
  · exact nl_not_mem_spaces m h1
  · exact hl h2

theorem jsTrim_subset (l : List Char) (a : Char) (h : a ∈ jsTrim l) : a ∈ l := by
  unfold jsTrim at h
  have h1 : a ∈ trimLeft l := by
    have hpre : (trimRight (trimLeft l)).isPrefixOf (trimLeft l) = true :=
      trimRight_isPrefix (trimLeft l)
    exact ((List.isPrefixOf_iff_prefix).mp hpre).sublist.mem h
  unfold trimLeft at h1
  exact (List.dropWhile_sublist isWs).mem h1

theorem braceInS_of_true (fm : List (List Char)) (b : Bool) (hb : b = true) :
    (match fm.getLast? with
     | some prev => if !prev.isEmpty && containsL (sLit "struct") prev then true else b
     | none => b) = true := by
  cases fm.getLast? with
  | none => exact hb
  | some prev =>
    by_cases hp : (!prev.isEmpty && containsL (sLit "struct") prev) = true
    · simp [hp]
    · simp [hp, hb]

theorem processLine_indented (size : Nat) (sA aF : Bool) (st : FmtState) (m : Nat)
    (line : List Char) (hline : jsTrim line = line) (hne : line.isEmpty = false)
    (hattr : startsWithL (sLit "#[") line = false) (hst : st.attrs = []) :
    processLine size sA aF st (spaces m ++ line) = dispatchLine size aF st line := by
  unfold processLine
  simp only [jsTrim_spaces_append, hline, hne, Bool.false_eq_true, if_false, hattr,
    flushAttrsStep_empty size sA st line hst, Option.bind_eq_bind, Option.some_bind]

theorem splitLines_ne_nil (l : List Char) : splitLines l ≠ [] := by
  cases l with
  | nil => exact List.cons_ne_nil _ _
  | cons c cs =>
    unfold splitLines
    by_cases hc : c = '\n'
    · rw [if_pos hc]; exact List.cons_ne_nil _ _
    · rw [if_neg hc]
      cases splitLines cs with
      | nil => exact List.cons_ne_nil _ _
      | cons a b => exact List.cons_ne_nil _ _

theorem splitLines_no_newline (l : List Char) : ∀ x ∈ splitLines l, '\n' ∉ x := by
  induction l with
  | nil =>
    intro x hx
    rw [List.mem_singleton.mp hx]
    exact List.not_mem_nil _
  | cons c cs ih =>
    intro x hx
    unfold splitLines at hx
    by_cases hc : c = '\n'
    · rw [if_pos hc] at hx
      rcases List.mem_cons.mp hx with h1 | h2
      · rw [h1]; exact List.not_mem_nil _
      · exact ih x h2
    · rw [if_neg hc] at hx
      cases hcs : splitLines cs with
      | nil => exact absurd hcs (splitLines_ne_nil cs)
      | cons l0 ls0 =>
        rw [hcs] at hx
        rcases List.mem_cons.mp hx with h1 | h2
        · rw [h1]
          intro hmem
          rcases List.mem_cons.mp hmem with hh | ht
          · exact hc hh.symm
          · exact ih l0 (hcs ▸ List.mem_cons_self _ _) ht
        · exact ih x (hcs ▸ List.mem_cons_of_mem _ h2)

theorem splitLines_cons (c : Char) (cs : List Char) :
    splitLines (c :: cs) =
      if c = '\n' then [] :: splitLines cs
      else match splitLines cs with
        | l :: ls => (c :: l) :: ls
        | [] => [[c]] := rfl

theorem splitLines_single (l : List Char) (h : '\n' ∉ l) : splitLines l = [l] := by
  induction l with
  | nil => rfl
  | cons c cs ih =>
    have hc : c ≠ '\n' := fun hc => h (hc ▸ List.mem_cons_self _ _)
    rw [splitLines_cons, if_neg hc, ih (fun hm => h (List.mem_cons_of_mem _ hm))]

theorem splitLines_append_newline (l t : List Char) (h : '\n' ∉ l) :
    splitLines (l ++ '\n' :: t) = l :: splitLines t := by
  induction l with
  | nil =>
    show splitLines ('\n' :: t) = [] :: splitLines t
    rw [splitLines_cons, if_pos rfl]
  | cons c cs ih =>
    have hc : c ≠ '\n' := fun hc => h (hc ▸ List.mem_cons_self _ _)
    show splitLines (c :: (cs ++ '\n' :: t)) = (c :: cs) :: splitLines t
    rw [splitLines_cons, if_neg hc, ih (fun hm => h (List.mem_cons_of_mem _ hm))]

theorem splitLines_joinLines (outs : List (List Char)) (hne : outs ≠ [])
    (hnl : ∀ l ∈ outs, '\n' ∉ l) : splitLines (joinLines outs) = outs := by
  induction outs with
  | nil => exact absurd rfl hne
  | cons l ls ih =>
    cases ls with
    | nil =>
      show splitLines (joinLines [l]) = [l]
      exact splitLines_single l (hnl l (List.mem_cons_self _ _))
    | cons l2 ls2 =>
      show splitLines (l ++ '\n' :: joinLines (l2 :: ls2)) = l :: l2 :: ls2
      rw [splitLines_append_newline _ _ (hnl l (List.mem_cons_self _ _)),
        ih (List.cons_ne_nil _ _) (fun x hx => hnl x (List.mem_cons_of_mem _ hx))]

theorem dispatchLine_sim (size : Nat) (sA aF : Bool) (st st1 : FmtState) (line : List Char)
    (hline : jsTrim line = line) (hnl : '\n' ∉ line) (hne : line.isEmpty = false)
    (hattr : startsWithL (sLit "#[") line = false)
    (hInv : fmtInv aF st)
    (h : dispatchLine size aF st line = some st1) :
    fmtInv aF st1 ∧ ∃ B, st1.formatted = st.formatted ++ B ∧
      runLines size sA aF (eraseBuffers st) B = some (eraseBuffers st1) := by
  obtain ⟨hIa, hIf, hIs, hIn⟩ := hInv
  unfold dispatchLine at h
  by_cases hc : isCloseLine line = true
  · have hcB : (decide (line = sLit "\x7d") || startsWithL (sLit "\x7d") line) = true := hc
    rw [hcB, if_pos rfl] at h
    by_cases hfl : (st.inStruct && !st.structFields.isEmpty && aF) = true
    · rw [if_pos hfl] at h
      simp only [Bool.and_eq_true, Bool.not_eq_eq_eq_not, Bool.not_true] at hfl
      obtain ⟨⟨hin, hfe⟩, haF⟩ := hfl
      cases halign : alignStructFields st.structFields (st.indentLevel + 1) size with
      | none =>
        rw [halign] at h
        simp only [Option.pure_def, Option.bind_eq_bind, Option.none_bind] at h
        cases h
      | some AL =>
        rw [halign] at h
        simp only [Option.pure_def, Option.bind_eq_bind, Option.some_bind] at h
        obtain ⟨f0, fs, hF⟩ : ∃ f0 fs, st.structFields = f0 :: fs := by
          cases hFc : st.structFields with
          | nil => rw [hFc] at hfe; cases hfe
          | cons a b => exact ⟨a, b, rfl⟩
        have hnn : 0 ≤ (st.indentLevel + 1) * (size : Int) := by
          have halign2 := halign
          rw [hF] at halign2
          exact alignStructFields_nonneg f0 fs _ size _ halign2
        have hALform : AL = (st.structFields.map parseField).map
            (emitField (spaces ((st.indentLevel + 1) * (size : Int)).toNat)
              (maxFieldLen (st.structFields.map parseField))) := by
          rw [alignStructFields_eq _ _ _ hnn] at halign
          exact (Option.some.inj halign).symm
        cases hind : indentStr (st.indentLevel - 1) size with
        | none =>
          rw [hind] at h
          simp only [Option.pure_def, Option.bind_eq_bind, Option.none_bind] at h
          cases h
        | some ind2 =>
          rw [hind] at h
          simp only [Option.pure_def, Option.bind_eq_bind, Option.some_bind,
            Option.some.injEq] at h
          subst h
          have hspaces : ind2 = spaces ((st.indentLevel - 1) * (size : Int)).toNat :=
            indentStr_some_spaces _ _ _ hind
          have hALgood2 : ∀ a ∈ AL, goodField (jsTrim a) ∧ '\n' ∉ a := by
            rw [hALform]
            exact aligned_mem_good st.structFields
              ((st.indentLevel + 1) * (size : Int)).toNat
              (maxFieldLen (st.structFields.map parseField)) hIf
          have hALne : (AL.map jsTrim).isEmpty = false := by
            rw [hALform, hF]; rfl
          have hstab : alignStructFields (AL.map jsTrim) (st.indentLevel + 1) size =
              some AL := by
            conv_lhs => rw [hALform]
            rw [align_stable st.structFields (st.indentLevel + 1) size hnn hIf, hALform]
          refine ⟨⟨hIa, fun f hf => absurd hf (List.not_mem_nil f),
            fun _ hne2 => absurd rfl hne2, ?_⟩,
            AL ++ [ind2 ++ line], by simp [List.append_assoc], ?_⟩
          · intro l hl
            simp only [List.mem_append, List.mem_singleton] at hl
            rcases hl with (h1 | h2) | h3
            · exact hIn l h1
            · exact (hALgood2 l h2).2
            · rw [h3, hspaces]
              exact nl_not_mem_spaces_append _ _ hnl
          · rw [runLines_append,
              runLines_buffer size sA aF AL (eraseBuffers st) rfl hin
                (fun a ha => (hALgood2 a ha).1)]
            simp only [Option.some_bind]
            rw [runLines_cons, hspaces,
              processLine_indented size sA aF _ _ line hline hne hattr rfl]
            unfold dispatchLine
            simp only [eraseBuffers, List.nil_append, hcB, eq_self_iff_true, if_true,
              hin, hALne, haF, Bool.not_false, Bool.and_self, Bool.and_true, hstab,
              Option.pure_def, Option.bind_eq_bind, Option.some_bind, hind]
            show some _ = some _
            simp only [eraseBuffers, List.append_assoc, Option.some.injEq]
            rw [hspaces]
    · rw [if_neg hfl] at h
      simp only [Option.pure_def, Option.bind_eq_bind, Option.some_bind] at h
      cases hind : indentStr (st.indentLevel - 1) size with
      | none =>
        rw [hind] at h
        simp only [Option.pure_def, Option.bind_eq_bind, Option.none_bind] at h
        cases h
      | some ind2 =>
        rw [hind] at h
        simp only [Option.pure_def, Option.bind_eq_bind, Option.some_bind,
          Option.some.injEq] at h
        subst h
        have hspaces : ind2 = spaces ((st.indentLevel - 1) * (size : Int)).toNat :=
          indentStr_some_spaces _ _ _ hind
        refine ⟨⟨hIa, hIf, ?_, ?_⟩, [ind2 ++ line], rfl, ?_⟩
        · intro haF' hne'
          exfalso
          have hfe' : st.structFields.isEmpty = false := by
            cases hFc : st.structFields with
            | nil => exact absurd hFc hne'
            | cons a b => rfl
          exact hfl (by rw [hIs haF' hne', haF', hfe']; rfl)
        · intro l hl
          rcases List.mem_append.mp hl with h1 | h2
          · exact hIn l h1
          · rw [List.mem_singleton.mp h2, hspaces]
            exact nl_not_mem_spaces_append _ _ hnl
        · rw [runLines_cons, hspaces,
            processLine_indented size sA aF _ _ line hline hne hattr rfl]
          unfold dispatchLine
          simp only [eraseBuffers, hcB, eq_self_iff_true, if_true, List.isEmpty_nil,
            Bool.not_true, Bool.and_false, Bool.false_and, Bool.false_eq_true, if_false,
            Option.pure_def, Option.bind_eq_bind, Option.some_bind, hind]
          show some _ = some _
          rw [hspaces]
  · have hcF : isCloseLine line = false := by rwa [Bool.not_eq_true] at hc
    have hcB : (decide (line = sLit "\x7d") || startsWithL (sLit "\x7d") line) = false := hcF
    simp only [hcB, Bool.false_eq_true, if_false] at h
    by_cases hs : (startsWithL (sLit "struct") line || startsWithL (sLit "enum") line ||
        startsWithL (sLit "pub struct") line || startsWithL (sLit "pub enum") line) = true
    · simp only [hs, eq_self_iff_true, if_true] at h
      cases hind : indentStr st.indentLevel size with
      | none =>
        rw [hind] at h
        simp only [Option.pure_def, Option.bind_eq_bind, Option.none_bind] at h
        cases h
      | some ind =>
        rw [hind] at h
        simp only [Option.pure_def, Option.bind_eq_bind, Option.some_bind] at h
        have hspaces : ind = spaces (st.indentLevel * (size : Int)).toNat :=
          indentStr_some_spaces _ _ _ hind
        by_cases he : endsWithL (sLit "\x7b") line = true
        · simp only [he, eq_self_iff_true, if_true, Option.some.injEq] at h
          subst h
          refine ⟨⟨hIa, hIf, ?_, ?_⟩, [ind ++ line], rfl, ?_⟩
          · intro haF' hne'
            by_cases hcont : containsL (sLit "struct") line = true
            · show (if containsL (sLit "struct") line = true then true else st.inStruct) = true
              rw [if_pos hcont]
            · show (if containsL (sLit "struct") line = true then true else st.inStruct) = true
              rw [if_neg hcont]
              exact hIs haF' hne'
          · intro l hl
            rcases List.mem_append.mp hl with h1 | h2
            · exact hIn l h1
            · rw [List.mem_singleton.mp h2, hspaces]
              exact nl_not_mem_spaces_append _ _ hnl
          · rw [runLines_cons, hspaces,
              processLine_indented size sA aF _ _ line hline hne hattr rfl]
            unfold dispatchLine
            simp only [eraseBuffers, hcB, Bool.false_eq_true, if_false, hs,
              eq_self_iff_true, if_true, hind, he, Option.pure_def, Option.bind_eq_bind,
              Option.some_bind]
            show some _ = some _
            rw [hspaces]
        · simp only [he, Bool.false_eq_true, if_false, Option.some.injEq] at h
          subst h
          refine ⟨⟨hIa, hIf, ?_, ?_⟩, [ind ++ line], rfl, ?_⟩
          · intro haF' hne'
            exact hIs haF' hne'
          · intro l hl
            rcases List.mem_append.mp hl with h1 | h2
            · exact hIn l h1
            · rw [List.mem_singleton.mp h2, hspaces]
              exact nl_not_mem_spaces_append _ _ hnl
          · rw [runLines_cons, hspaces,
              processLine_indented size sA aF _ _ line hline hne hattr rfl]
            unfold dispatchLine
            simp only [eraseBuffers, hcB, Bool.false_eq_true, if_false, hs,
              eq_self_iff_true, if_true, hind, he, Option.pure_def, Option.bind_eq_bind,
              Option.some_bind]
            show some _ = some _
            rw [hspaces]
    · simp only [hs, Bool.false_eq_true, if_false] at h
      by_cases hb : line = sLit "\x7b"
      · rw [if_pos hb] at h
        cases hind : indentStr (st.indentLevel + 1 - 1) size with
        | none =>
          rw [hind] at h
          simp only [Option.pure_def, Option.bind_eq_bind, Option.none_bind] at h
          cases h
        | some ind =>
          rw [hind] at h
          simp only [Option.pure_def, Option.bind_eq_bind, Option.some_bind,
            Option.some.injEq] at h
          subst h
          have hspaces : ind = spaces ((st.indentLevel + 1 - 1) * (size : Int)).toNat :=
            indentStr_some_spaces _ _ _ hind
          refine ⟨⟨hIa, hIf, ?_, ?_⟩, [ind ++ line], rfl, ?_⟩
          · intro haF' hne'
            exact braceInS_of_true st.formatted st.inStruct (hIs haF' hne')
          · intro l hl
            rcases List.mem_append.mp hl with h1 | h2
            · exact hIn l h1
            · rw [List.mem_singleton.mp h2, hspaces]
              exact nl_not_mem_spaces_append _ _ hnl
          · rw [runLines_cons, hspaces,
              processLine_indented size sA aF _ _ line hline hne hattr rfl]
            unfold dispatchLine
            simp only [eraseBuffers, hcB, Bool.false_eq_true, if_false, hs, hb,
              eq_self_iff_true, if_true, hind, Option.pure_def, Option.bind_eq_bind,
              Option.some_bind]
            show some _ = some _
            rw [hspaces]
      · rw [if_neg hb] at h
        by_cases hfld : (st.inStruct && containsL (sLit ":") line) = true
        · simp only [hfld, eq_self_iff_true, if_true, Option.pure_def,
            Option.some.injEq] at h
          subst h
          obtain ⟨hin, hcont⟩ := by simpa [Bool.and_eq_true] using hfld
          have hsF : (startsWithL (sLit "struct") line || startsWithL (sLit "enum") line ||
              startsWithL (sLit "pub struct") line ||
              startsWithL (sLit "pub enum") line) = false := by
            rwa [Bool.not_eq_true] at hs
          refine ⟨⟨hIa, ?_, ?_, hIn⟩, [], (List.append_nil _).symm, rfl⟩
          · intro f hf
            rcases List.mem_append.mp hf with h1 | h2
            · exact hIf f h1
            · rw [List.mem_singleton.mp h2]
              exact ⟨hline, hcont, hattr, hcF, hsF, hnl⟩
          · intro _ _
            exact hin
        · simp only [hfld, Bool.false_eq_true, if_false] at h
          cases hind : indentStr st.indentLevel size with
          | none =>
            rw [hind] at h
            simp only [Option.pure_def, Option.bind_eq_bind, Option.none_bind] at h
            cases h
          | some ind =>
            rw [hind] at h
            simp only [Option.pure_def, Option.bind_eq_bind, Option.some_bind,
              Option.some.injEq] at h
            subst h
            have hspaces : ind = spaces (st.indentLevel * (size : Int)).toNat :=
              indentStr_some_spaces _ _ _ hind
            refine ⟨⟨hIa, hIf, ?_, ?_⟩, [ind ++ line], rfl, ?_⟩
            · intro haF' hne'
              exact hIs haF' hne'
            · intro l hl
              rcases List.mem_append.mp hl with h1 | h2
              · exact hIn l h1
              · rw [List.mem_singleton.mp h2, hspaces]
                exact nl_not_mem_spaces_append _ _ hnl
            · rw [runLines_cons, hspaces,
                processLine_indented size sA aF _ _ line hline hne hattr rfl]
              unfold dispatchLine
              simp only [eraseBuffers, hcB, Bool.false_eq_true, if_false, hs, hfld,
                if_neg hb, hind, Option.pure_def, Option.bind_eq_bind, Option.some_bind]
              show some _ = some _
              rw [hspaces]

theorem processLine_sim (size : Nat) (sA aF : Bool) (st st1 : FmtState) (raw : List Char)
    (hattr : startsWithL (sLit "#[") (jsTrim raw) = false)
    (hnlr : '\n' ∉ raw)
    (hInv : fmtInv aF st)
    (h : processLine size sA aF st raw = some st1) :
    fmtInv aF st1 ∧ ∃ B, st1.formatted = st.formatted ++ B ∧
      runLines size sA aF (eraseBuffers st) B = some (eraseBuffers st1) := by
  obtain ⟨hIa, hIf, hIs, hIn⟩ := hInv
  have hnl : '\n' ∉ jsTrim raw := fun hm => hnlr (jsTrim_subset raw '\n' hm)
  unfold processLine at h
  by_cases h1 : (jsTrim raw).isEmpty = true
  · simp only [h1, eq_self_iff_true, if_true, Option.some.injEq] at h
    subst h
    refine ⟨⟨hIa, hIf, fun haF' hne' => hIs haF' hne', ?_⟩, [[]], rfl, ?_⟩
    · intro l hl
      rcases List.mem_append.mp hl with hl1 | hl2
      · exact hIn l hl1
      · rw [List.mem_singleton.mp hl2]
        exact List.not_mem_nil _
    · rfl
  · simp only [h1, Bool.false_eq_true, if_false, hattr, Option.bind_eq_bind] at h
    rw [flushAttrsStep_empty size sA st (jsTrim raw) hIa] at h
    simp only [Option.some_bind] at h
    exact dispatchLine_sim size sA aF st st1 (jsTrim raw) (jsTrim_idem raw)
      hnl (by rwa [Bool.not_eq_true] at h1) hattr ⟨hIa, hIf, hIs, hIn⟩ h

theorem runLines_sim (size : Nat) (sA aF : Bool) (ls : List (List Char)) :
    ∀ st st' : FmtState,
      (∀ raw ∈ ls, startsWithL (sLit "#[") (jsTrim raw) = false ∧ '\n' ∉ raw) →
      fmtInv aF st →
      runLines size sA aF st ls = some st' →
      fmtInv aF st' ∧ ∃ D, st'.formatted = st.formatted ++ D ∧
        runLines size sA aF (eraseBuffers st) D = some (eraseBuffers st') := by
  induction ls with
  | nil =>
    intro st st' _ hInv h
    cases h
    exact ⟨hInv, [], (List.append_nil _).symm, rfl⟩
  | cons raw ls ih =>
    intro st st' hls hInv h
    rw [runLines_cons] at h
    cases hp : processLine size sA aF st raw with
    | none =>
      rw [hp] at h
      cases h
    | some st1 =>
      rw [hp] at h
      simp only [Option.some_bind] at h
      obtain ⟨hInv1, B, hB, hrunB⟩ := processLine_sim size sA aF st st1 raw
        (hls raw (List.mem_cons_self _ _)).1 (hls raw (List.mem_cons_self _ _)).2 hInv hp
      obtain ⟨hInv', D, hD, hrunD⟩ :=
        ih st1 st' (fun x hx => hls x (List.mem_cons_of_mem _ hx)) hInv1 h
      refine ⟨hInv', B ++ D, by rw [hD, hB, List.append_assoc], ?_⟩
      rw [runLines_append, hrunB]
      simp only [Option.some_bind]
      exact hrunD

theorem dispatchLine_emits (size : Nat) (aF : Bool) (st st1 : FmtState) (line : List Char)
    (hin : st.inStruct = false)
    (h : dispatchLine size aF st line = some st1) :
    ∃ x, st1.formatted = st.formatted ++ [x] := by
  unfold dispatchLine at h
  by_cases hc : (decide (line = sLit "\x7d") || startsWithL (sLit "\x7d") line) = true
  · rw [hc, if_pos rfl] at h
    simp only [hin, Bool.false_and, Bool.false_eq_true, if_false, Option.pure_def,
      Option.bind_eq_bind, Option.some_bind] at h
    cases hind : indentStr (st.indentLevel - 1) size with
    | none =>
      rw [hind] at h
      simp only [Option.none_bind] at h
      cases h
    | some ind2 =>
      rw [hind] at h
      simp only [Option.some_bind, Option.some.injEq] at h
      subst h
      exact ⟨_, rfl⟩
  · have hcf : (decide (line = sLit "\x7d") || startsWithL (sLit "\x7d") line) = false := by
      rwa [Bool.not_eq_true] at hc
    simp only [hcf, Bool.false_eq_true, if_false] at h
    by_cases hs : (startsWithL (sLit "struct") line || startsWithL (sLit "enum") line ||
        startsWithL (sLit "pub struct") line || startsWithL (sLit "pub enum") line) = true
    · simp only [hs, eq_self_iff_true, if_true] at h
      cases hind : indentStr st.indentLevel size with
      | none =>
        rw [hind] at h
        simp only [Option.pure_def, Option.bind_eq_bind, Option.none_bind] at h
        cases h
      | some ind =>
        rw [hind] at h
        simp only [Option.pure_def, Option.bind_eq_bind, Option.some_bind] at h
        by_cases he : endsWithL (sLit "\x7b") line = true
        · simp only [he, eq_self_iff_true, if_true, Option.some.injEq] at h
          subst h
          exact ⟨_, rfl⟩
        · simp only [he, Bool.false_eq_true, if_false, Option.some.injEq] at h
          subst h
          exact ⟨_, rfl⟩
    · simp only [hs, Bool.false_eq_true, if_false] at h
      by_cases hb : line = sLit "\x7b"
      · rw [if_pos hb] at h
        cases hind : indentStr (st.indentLevel + 1 - 1) size with
        | none =>
          rw [hind] at h
          simp only [Option.pure_def, Option.bind_eq_bind, Option.none_bind] at h
          cases h
        | some ind =>
          rw [hind] at h
          simp only [Option.pure_def, Option.bind_eq_bind, Option.some_bind,
            Option.some.injEq] at h
          subst h
          exact ⟨_, rfl⟩
      · rw [if_neg hb] at h
        simp only [hin, Bool.false_and, Bool.false_eq_true, if_false] at h
        cases hind : indentStr st.indentLevel size with
        | none =>
          rw [hind] at h
          simp only [Option.pure_def, Option.bind_eq_bind, Option.none_bind] at h
          cases h
        | some ind =>
          rw [hind] at h
          simp only [Option.pure_def, Option.bind_eq_bind, Option.some_bind,
            Option.some.injEq] at h
          subst h
          exact ⟨_, rfl⟩

theorem processLine_emits (size : Nat) (sA aF : Bool) (st st1 : FmtState)
    (raw : List Char) (hin : st.inStruct = false) (hst : st.attrs = [])
    (hattr : startsWithL (sLit "#[") (jsTrim raw) = false)
    (h : processLine size sA aF st raw = some st1) :
    ∃ x, st1.formatted = st.formatted ++ [x] := by
  unfold processLine at h
  by_cases h1 : (jsTrim raw).isEmpty = true
  · simp only [h1, eq_self_iff_true, if_true, Option.some.injEq] at h
    subst h
    exact ⟨_, rfl⟩
  · simp only [h1, Bool.false_eq_true, if_false, hattr, Option.bind_eq_bind] at h
    rw [flushAttrsStep_empty size sA st (jsTrim raw) hst] at h
    simp only [Option.some_bind] at h
    exact dispatchLine_emits size aF st st1 (jsTrim raw) hin h

theorem formatLines_idem (size : Nat) (sA aF : Bool) (ls outs : List (List Char))
    (hattr : ∀ raw ∈ ls, startsWithL (sLit "#[") (jsTrim raw) = false)
    (hnl : ∀ raw ∈ ls, '\n' ∉ raw)
    (hlne : ls ≠ [])
    (h : formatLines ls size sA aF = some outs) :
    formatLines outs size sA aF = some outs ∧ outs ≠ [] ∧ ∀ l ∈ outs, '\n' ∉ l := by
  unfold formatLines at h
  cases hrun : runLines size sA aF initFmt ls with
  | none =>
    rw [hrun] at h
    cases h
  | some st' =>
    rw [hrun] at h
    simp only [Option.bind_eq_bind, Option.some_bind] at h
    have hInv0 : fmtInv aF initFmt :=
      ⟨rfl, fun f hf => absurd hf (List.not_mem_nil f),
        fun _ hne' => absurd rfl hne', fun l hl => absurd hl (List.not_mem_nil l)⟩
    obtain ⟨hInv', D, hD, hrunD⟩ := runLines_sim size sA aF ls initFmt st'
      (fun raw hr => ⟨hattr raw hr, hnl raw hr⟩) hInv0 hrun
    obtain ⟨hIa', hIf', hIs', hIn'⟩ := hInv'
    have hDf : st'.formatted = D := by
      rw [hD]
      rfl
    have hfne : st'.formatted ≠ [] := by
      obtain ⟨raw0, rest, rfl⟩ : ∃ raw0 rest, ls = raw0 :: rest := by
        cases ls with
        | nil => exact absurd rfl hlne
        | cons a b => exact ⟨a, b, rfl⟩
      rw [runLines_cons] at hrun
      cases hp : processLine size sA aF initFmt raw0 with
      | none =>
        rw [hp] at hrun
        cases hrun
      | some s1 =>
        rw [hp] at hrun
        simp only [Option.some_bind] at hrun
        obtain ⟨x, hx⟩ := processLine_emits size sA aF initFmt s1 raw0 rfl rfl
          (hattr raw0 (List.mem_cons_self _ _)) hp
        have hInv1 : fmtInv aF s1 :=
          (processLine_sim size sA aF initFmt s1 raw0 (hattr raw0 (List.mem_cons_self _ _))
            (hnl raw0 (List.mem_cons_self _ _)) hInv0 hp).1
        obtain ⟨_, D1, hD1, _⟩ := runLines_sim size sA aF rest s1 st'
          (fun r hr => ⟨hattr r (List.mem_cons_of_mem _ hr), hnl r (List.mem_cons_of_mem _ hr)⟩)
          hInv1 hrun
        rw [hD1, hx]
        simp
    unfold finishFmt at h
    by_cases hfl1 : (!st'.structFields.isEmpty && aF) = true
    · simp only [hfl1, eq_self_iff_true, if_true, Option.pure_def, Option.bind_eq_bind] at h
      simp only [Bool.and_eq_true, Bool.not_eq_eq_eq_not, Bool.not_true] at hfl1
      obtain ⟨hfe, haF⟩ := hfl1
      obtain ⟨f0, fs, hF⟩ : ∃ f0 fs, st'.structFields = f0 :: fs := by
        cases hFc : st'.structFields with
        | nil => rw [hFc] at hfe; cases hfe
        | cons a b => exact ⟨a, b, rfl⟩
      have hin' : st'.inStruct = true := hIs' haF (by rw [hF]; exact List.cons_ne_nil _ _)
      cases halign : alignStructFields st'.structFields st'.indentLevel size with
      | none =>
        rw [halign] at h
        simp only [Option.none_bind] at h
        cases h
      | some AL =>
        rw [halign] at h
        simp only [Option.some_bind, hIa', List.isEmpty_nil, Bool.not_true,
          Bool.false_eq_true, if_false, Option.some.injEq] at h
        have hnn : 0 ≤ st'.indentLevel * (size : Int) := by
          have halign2 := halign
          rw [hF] at halign2
          exact alignStructFields_nonneg f0 fs _ size _ halign2
        have hALform : AL = (st'.structFields.map parseField).map
            (emitField (spaces (st'.indentLevel * (size : Int)).toNat)
              (maxFieldLen (st'.structFields.map parseField))) := by
          rw [alignStructFields_eq _ _ _ hnn] at halign
          exact (Option.some.inj halign).symm
        have hALgood2 : ∀ a ∈ AL, goodField (jsTrim a) ∧ '\n' ∉ a := by
          rw [hALform]
          exact aligned_mem_good st'.structFields _ _ hIf'
        have hALne : (AL.map jsTrim).isEmpty = false := by
          rw [hALform, hF]; rfl
        have hstab : alignStructFields (AL.map jsTrim) st'.indentLevel size = some AL := by
          conv_lhs => rw [hALform]
          rw [align_stable st'.structFields st'.indentLevel size hnn hIf', hALform]
        subst h
        have hrunDf : runLines size sA aF initFmt st'.formatted =
            some (eraseBuffers st') := by
          rw [hDf]
          exact hrunD
        refine ⟨?_, by simp [hfne], ?_⟩
        · unfold formatLines
          rw [runLines_append, hrunDf]
          simp only [Option.bind_eq_bind, Option.some_bind]
          rw [runLines_buffer size sA aF AL (eraseBuffers st') rfl hin'
            (fun a ha => (hALgood2 a ha).1)]
          simp only [Option.some_bind]
          unfold finishFmt
          simp only [eraseBuffers, List.nil_append, hALne, Bool.not_false, haF,
            Bool.and_self, Bool.and_true, eq_self_iff_true, if_true, hstab,
            Option.pure_def, Option.bind_eq_bind, Option.some_bind, List.isEmpty_nil,
            Bool.not_true, Bool.false_eq_true, if_false, Option.some.injEq]
        · intro l hl
          rcases List.mem_append.mp hl with h1 | h2
          · exact hIn' l h1
          · exact (hALgood2 l h2).2
    · simp only [hfl1, Bool.false_eq_true, if_false, Option.pure_def, Option.bind_eq_bind,
        Option.some_bind, hIa', List.isEmpty_nil, Bool.not_true, Option.some.injEq] at h
      subst h
      have hrunDf : runLines size sA aF initFmt st'.formatted =
          some (eraseBuffers st') := by
        rw [hDf]
        exact hrunD
      refine ⟨?_, hfne, hIn'⟩
      unfold formatLines
      rw [hrunDf]
      simp only [Option.bind_eq_bind, Option.some_bind]
      unfold finishFmt
      simp only [eraseBuffers, List.isEmpty_nil, Bool.not_true, Bool.false_and,
        Bool.false_eq_true, if_false, Option.pure_def, Option.bind_eq_bind,
        Option.some_bind, Option.some.injEq]

/-- C4: corrected. Formatting is NOT idempotent in general (see the
counterexample with a displaced attribute block), but it is idempotent on
every document that contains no attribute lines: if `formatDocument`
succeeds on such a document, running it again on the output returns the
output unchanged. -/
theorem c4_amended (text : String) (size : Nat) (sA aF : Bool) (out : String)
    (hattr : noAttrDoc (splitLines text.data) = true)
    (h : formatDocument text size sA aF = some out) :
    formatDocument out size sA aF = some out := by
  unfold formatDocument at h ⊢
  cases hfl : formatLines (splitLines text.data) size sA aF with
  | none =>
    rw [hfl] at h
    cases h
  | some outs =>
    rw [hfl] at h
    simp only [Option.map_some', Option.some.injEq] at h
    have hout : out = ⟨joinLines outs⟩ := h.symm
    have hattr' : ∀ raw ∈ splitLines text.data,
        startsWithL (sLit "#[") (jsTrim raw) = false := by
      intro raw hr
      have hx := (List.all_eq_true.mp hattr) raw hr
      simpa using hx
    obtain ⟨hidem, hne, hnl⟩ := formatLines_idem size sA aF (splitLines text.data) outs
      hattr' (splitLines_no_newline text.data) (splitLines_ne_nil _) hfl
    have hsplit : splitLines out.data = outs := by
      rw [hout]
      exact splitLines_joinLines outs hne hnl
    rw [hsplit, hidem, hout]
    rfl

/-- Witness for C4: a concrete attribute-free struct document on which formatting is verified idempotent. -/
theorem c4_witness :
    noAttrDoc (splitLines (String.data "struct S \x7b\na: b\n\x7d")) = true ∧
    formatDocument "struct S \x7b\na: b\n\x7d" 4 true true =
      some "struct S \x7b\n        a: b\n\x7d" ∧
    formatDocument "struct S \x7b\n        a: b\n\x7d" 4 true true =
      some "struct S \x7b\n        a: b\n\x7d" :=
  ⟨by decide, by decide,
    c4_amended "struct S \x7b\na: b\n\x7d" 4 true true "struct S \x7b\n        a: b\n\x7d"
      (by decide) (by decide)⟩
